import Mathlib

/-!
# Verification of the `toon-rs` codec core

A shallow embedding, in Lean 4, of the parts of the `toon` crate
(`crates/toon/src`) that the specification's claims are about:

* the data model (`value.rs`),
* the line scanner (`decode/scanner.rs`),
* the structural parser (`decode/parser.rs`),
* strict-mode indentation validation (`decode/validation.rs`),
* path expansion (`decode/path_expand.rs`),
* the encoder (`encode/primitives.rs`, `encode/writer.rs`, `encode/encoders.rs`,
  `encode/normalize.rs`, `encode/mod.rs`).

Rust strings are modelled as `List Char` (the functions embedded here scan
byte-by-byte, but every byte they dispatch on is ASCII, so a character-level
scan is observationally identical on valid UTF-8).  Machine integers are
`Nat`/`Int` with explicit range checks where the source checks for overflow.
`f64` appears in the source only behind branches that no settled claim
exercises; those branches are modelled over exact rationals and are documented
at their definitions.

The imperative `Parser` struct is embedded as explicit state passing over a
`PState` record; its unbounded loops and mutual recursion are driven by a
`fuel` argument that strictly exceeds the recursion depth reachable on the
given line list (each recursive descent in the source consumes at least one
scanned line first).
-/

set_option maxRecDepth 100000
set_option maxHeartbeats 2000000

namespace Toon

/-- Rust `&str`/`String`, modelled at character granularity. -/
abbrev Str := List Char

/-- `crate::value::Number`. The `F64` payload is modelled as an exact rational:
no claim settled in this development constructs or inspects an `F64`, and the
source's finiteness invariant is out of scope here. -/
inductive Number where
  | i64 (i : Int)
  | u64 (n : Nat)
  | f64 (q : ℚ)
  deriving Repr, DecidableEq

/-- `crate::value::Value`: the six-variant data model, objects as insertion
ordered key/value pair lists (`Vec<(String, Value)>` in the source). -/
inductive Value where
  | null
  | bool (b : Bool)
  | num (n : Number)
  | str (s : Str)
  | arr (items : List Value)
  | obj (fields : List (Str × Value))

mutual

/-- Decidable structural equality for `Value` (the nested inductive gets
no derived instance). -/
def valueDecEq : (a b : Value) → Decidable (a = b)
  | .null, .null => isTrue rfl
  | .null, .bool y => isFalse (by intro h; exact Value.noConfusion h)
  | .null, .num y => isFalse (by intro h; exact Value.noConfusion h)
  | .null, .str y => isFalse (by intro h; exact Value.noConfusion h)
  | .null, .arr y => isFalse (by intro h; exact Value.noConfusion h)
  | .null, .obj y => isFalse (by intro h; exact Value.noConfusion h)
  | .bool x, .null => isFalse (by intro h; exact Value.noConfusion h)
  | .bool x, .bool y =>
    match decEq x y with
    | isTrue h => isTrue (by rw [h])
    | isFalse h => isFalse (by intro he; injection he; contradiction)
  | .bool x, .num y => isFalse (by intro h; exact Value.noConfusion h)
  | .bool x, .str y => isFalse (by intro h; exact Value.noConfusion h)
  | .bool x, .arr y => isFalse (by intro h; exact Value.noConfusion h)
  | .bool x, .obj y => isFalse (by intro h; exact Value.noConfusion h)
  | .num x, .null => isFalse (by intro h; exact Value.noConfusion h)
  | .num x, .bool y => isFalse (by intro h; exact Value.noConfusion h)
  | .num x, .num y =>
    match decEq x y with
    | isTrue h => isTrue (by rw [h])
    | isFalse h => isFalse (by intro he; injection he; contradiction)
  | .num x, .str y => isFalse (by intro h; exact Value.noConfusion h)
  | .num x, .arr y => isFalse (by intro h; exact Value.noConfusion h)
  | .num x, .obj y => isFalse (by intro h; exact Value.noConfusion h)
  | .str x, .null => isFalse (by intro h; exact Value.noConfusion h)
  | .str x, .bool y => isFalse (by intro h; exact Value.noConfusion h)
  | .str x, .num y => isFalse (by intro h; exact Value.noConfusion h)
  | .str x, .str y =>
    match decEq x y with
    | isTrue h => isTrue (by rw [h])
    | isFalse h => isFalse (by intro he; injection he; contradiction)
  | .str x, .arr y => isFalse (by intro h; exact Value.noConfusion h)
  | .str x, .obj y => isFalse (by intro h; exact Value.noConfusion h)
  | .arr x, .null => isFalse (by intro h; exact Value.noConfusion h)
  | .arr x, .bool y => isFalse (by intro h; exact Value.noConfusion h)
  | .arr x, .num y => isFalse (by intro h; exact Value.noConfusion h)
  | .arr x, .str y => isFalse (by intro h; exact Value.noConfusion h)
  | .arr x, .arr y =>
    match valueListDecEq x y with
    | isTrue h => isTrue (by rw [h])
    | isFalse h => isFalse (by intro he; injection he; contradiction)
  | .arr x, .obj y => isFalse (by intro h; exact Value.noConfusion h)
  | .obj x, .null => isFalse (by intro h; exact Value.noConfusion h)
  | .obj x, .bool y => isFalse (by intro h; exact Value.noConfusion h)
  | .obj x, .num y => isFalse (by intro h; exact Value.noConfusion h)
  | .obj x, .str y => isFalse (by intro h; exact Value.noConfusion h)
  | .obj x, .arr y => isFalse (by intro h; exact Value.noConfusion h)
  | .obj x, .obj y =>
    match valueFieldsDecEq x y with
    | isTrue h => isTrue (by rw [h])
    | isFalse h => isFalse (by intro he; injection he; contradiction)

/-- Decidable equality for value lists. -/
def valueListDecEq : (a b : List Value) → Decidable (a = b)
  | [], [] => isTrue rfl
  | [], _ :: _ => isFalse (by intro h; exact List.noConfusion h)
  | _ :: _, [] => isFalse (by intro h; exact List.noConfusion h)
  | x :: xs, y :: ys =>
    match valueDecEq x y, valueListDecEq xs ys with
    | isTrue h1, isTrue h2 => isTrue (by rw [h1, h2])
    | isFalse h1, _ => isFalse (by intro he; injection he; contradiction)
    | _, isFalse h2 => isFalse (by intro he; injection he; contradiction)

/-- Decidable equality for object field lists. -/
def valueFieldsDecEq : (a b : List (Str × Value)) → Decidable (a = b)
  | [], [] => isTrue rfl
  | [], _ :: _ => isFalse (by intro h; exact List.noConfusion h)
  | _ :: _, [] => isFalse (by intro h; exact List.noConfusion h)
  | (k1, v1) :: xs, (k2, v2) :: ys =>
    match decEq k1 k2, valueDecEq v1 v2, valueFieldsDecEq xs ys with
    | isTrue h0, isTrue h1, isTrue h2 => isTrue (by rw [h0, h1, h2])
    | isFalse h0, _, _ =>
      isFalse (by intro he; injection he with hp ht; injection hp; contradiction)
    | _, isFalse h1, _ =>
      isFalse (by intro he; injection he with hp ht; injection hp; contradiction)
    | _, _, isFalse h2 => isFalse (by intro he; injection he; contradiction)

end

instance : DecidableEq Value := valueDecEq

instance {ε α : Type} [DecidableEq ε] [DecidableEq α] : DecidableEq (Except ε α)
  | .ok a, .ok b =>
    match decEq a b with
    | isTrue h => isTrue (by rw [h])
    | isFalse h => isFalse (by intro he; injection he; contradiction)
  | .error a, .error b =>
    match decEq a b with
    | isTrue h => isTrue (by rw [h])
    | isFalse h => isFalse (by intro he; injection he; contradiction)
  | .ok _, .error _ => isFalse (by intro h; exact Except.noConfusion h)
  | .error _, .ok _ => isFalse (by intro h; exact Except.noConfusion h)
instance : Inhabited Value := ⟨Value.null⟩

/-- `Value::is_primitive` (`value.rs`). -/
def Value.isPrimitive : Value → Bool
  | .null | .bool _ | .num _ | .str _ => true
  | _ => false

/-! ## Options (`options.rs`) -/

/-- `options::Delimiter`. -/
inductive Delimiter where
  | comma
  | tab
  | pipe
  deriving Repr, DecidableEq

/-- `options::KeyFolding`. -/
inductive KeyFolding where
  | off
  | safe
  deriving Repr, DecidableEq

/-- `options::ExpandPaths`. -/
inductive ExpandPaths where
  | off
  | safe
  deriving Repr, DecidableEq

/-- `options::Options`. -/
structure Options where
  delimiter : Delimiter
  strict : Bool
  indent : Nat
  keyFolding : KeyFolding
  flattenDepth : Option Nat
  expandPaths : ExpandPaths
  deriving Repr, DecidableEq

/-- `Options::default()`. -/
def Options.default : Options :=
  { delimiter := .comma, strict := false, indent := 2,
    keyFolding := .off, flattenDepth := none, expandPaths := .off }

/-! ## Scanner (`decode/scanner.rs`) -/

/-- `scanner::LineKind`. -/
inductive LineKind where
  | blank
  | keyValue (key value : Str)
  | keyOnly (key : Str)
  | listItem (value : Option Str)
  | scalar (s : Str)
  deriving Repr, DecidableEq

/-- `scanner::ParsedLine`. -/
structure ParsedLine where
  indent : Nat
  kind : LineKind
  deriving Repr, DecidableEq

/-- `scanner::leading_spaces`: count of leading ASCII space characters. -/
def leadingSpaces : Str → Nat
  | [] => 0
  | c :: rest => if c = ' ' then leadingSpaces rest + 1 else 0

/-- State machine of `scanner::find_unquoted_colon` (the portable,
non-`memchr` variant; the two variants are bit-identical by construction).
Returns the index of the first `:` outside a double-quoted region. -/
def findUnquotedColonAux : Str → Bool → Bool → Nat → Option Nat
  | [], _, _, _ => none
  | c :: rest, inStr, escape, i =>
    if inStr then
      if escape then findUnquotedColonAux rest true false (i + 1)
      else if c = '\\' then findUnquotedColonAux rest true true (i + 1)
      else if c = '"' then findUnquotedColonAux rest false false (i + 1)
      else findUnquotedColonAux rest true false (i + 1)
    else
      if c = '"' then findUnquotedColonAux rest true false (i + 1)
      else if c = ':' then some i
      else findUnquotedColonAux rest false false (i + 1)

/-- `scanner::find_unquoted_colon`. -/
def findUnquotedColon (s : Str) : Option Nat :=
  findUnquotedColonAux s false false 0

/-- `scanner::trim_ascii`: strip leading and trailing spaces and tabs. -/
def trimAscii (s : Str) : Str :=
  (s.dropWhile (fun c => c = ' ' ∨ c = '\t')).reverse.dropWhile
    (fun c => c = ' ' ∨ c = '\t') |>.reverse

/-- `scanner::trim_ascii_start`. -/
def trimAsciiStart (s : Str) : Str :=
  s.dropWhile (fun c => c = ' ' ∨ c = '\t')

/-- `scanner::parse_line`: classify one raw line (without its newline). -/
def parseLine (line : Str) : ParsedLine :=
  let indent := leadingSpaces line
  let body := line.drop indent
  if body = [] then ⟨indent, .blank⟩
  else if body.take 2 = ['-', ' '] then ⟨indent, .listItem (some (body.drop 2))⟩
  else if body = ['-'] then ⟨indent, .listItem none⟩
  else if body.head? = some '@' then ⟨indent, .scalar body⟩
  else
    match findUnquotedColon body with
    | some idx =>
      let k := body.take idx
      let after := body.drop (idx + 1)
      if trimAscii after = [] then ⟨indent, .keyOnly k⟩
      else ⟨indent, .keyValue k (trimAsciiStart after)⟩
    | none => ⟨indent, .scalar body⟩

/-- Helper for `scanner::scan`: cut off the first line. The result is the
text before the first `\n` together with the remaining input after that
`\n` (`none` when the input has no `\n`, matching the iterator's final
unterminated line). -/
def splitFirstLine : Str → Str × Option Str
  | [] => ([], none)
  | c :: rest =>
    if c = '\n' then ([], some rest)
    else
      let (l, r) := splitFirstLine rest
      (c :: l, r)

/-- Line cutter of `scanner::scan` / `LineIter`: `cur` accumulates the
current line (reversed). A `\n` ends a line; if nothing follows it, the
iteration stops (the terminator belongs to the line before it), and a final
unterminated segment is a line of its own. -/
def scanGo : Str → Str → List Str
  | [], cur => [cur.reverse]
  | c :: rest, cur =>
    if c = '\n' then
      match rest with
      | [] => [cur.reverse]
      | _ :: _ => cur.reverse :: scanGo rest []
    else scanGo rest (c :: cur)

/-- `scanner::scan`: an empty input yields no lines; otherwise classify
each cut line. -/
def scan (input : Str) : List ParsedLine :=
  match input with
  | [] => []
  | _ :: _ => (scanGo input []).map parseLine

/-! ## Integer and float token parsing (Rust `FromStr`) -/

/-- Value of a non-empty all-ASCII-digit string; `none` otherwise. -/
def digitsToNat? (s : Str) : Option Nat :=
  if s ≠ [] ∧ s.all (·.isDigit) then
    some (s.foldl (fun acc c => 10 * acc + (c.toNat - '0'.toNat)) 0)
  else none

/-- Rust `str::parse::<u64>()`: optional `+` sign, digits, 64-bit range. -/
def rustParseU64 (s : Str) : Option Nat :=
  let t := match s with
    | '+' :: r => r
    | r => r
  match digitsToNat? t with
  | some n => if n < 2 ^ 64 then some n else none
  | none => none

/-- Rust `str::parse::<usize>()` on a 64-bit target. -/
def rustParseUsize (s : Str) : Option Nat := rustParseU64 s

/-- Rust `str::parse::<i64>()`: optional sign, digits, 64-bit signed range. -/
def rustParseI64 (s : Str) : Option Int :=
  match s with
  | '-' :: r =>
    match digitsToNat? r with
    | some n => if n ≤ 2 ^ 63 then some (-(n : Int)) else none
    | none => none
  | '+' :: r =>
    match digitsToNat? r with
    | some n => if n < 2 ^ 63 then some (n : Int) else none
    | none => none
  | r =>
    match digitsToNat? r with
    | some n => if n < 2 ^ 63 then some (n : Int) else none
    | none => none

/-- Rust `char::is_whitespace` (the Unicode `White_Space` set), used by
`str::trim` at the source's `looks_like_literal` and bracket-content sites. -/
def rustIsWhitespace (c : Char) : Bool :=
  c.toNat ∈ ([0x09, 0x0A, 0x0B, 0x0C, 0x0D, 0x20, 0x85, 0xA0, 0x1680,
    0x2000, 0x2001, 0x2002, 0x2003, 0x2004, 0x2005, 0x2006, 0x2007,
    0x2008, 0x2009, 0x200A, 0x2028, 0x2029, 0x202F, 0x205F, 0x3000] : List Nat)

/-- Rust `str::trim`. -/
def rustTrim (s : Str) : Str :=
  (s.dropWhile rustIsWhitespace).reverse.dropWhile rustIsWhitespace |>.reverse

/-- Acceptance grammar of Rust `str::parse::<f64>()` (`is_ok` only):
optional sign, then (case-insensitively) `inf`, `infinity`, `nan`, or a
decimal number `digits [. digits?] [exp]` / `. digits [exp]` with
`exp = (e|E) [sign] digits`. -/
def rustF64GrammarBody (s : Str) : Bool :=
  let lower := s.map Char.toLower
  if lower = ['i','n','f'] ∨ lower = ['i','n','f','i','n','i','t','y'] ∨
     lower = ['n','a','n'] then true
  else
    let intPart := s.takeWhile (·.isDigit)
    let rest1 := s.drop intPart.length
    let (fracOk, rest2) :=
      match rest1 with
      | '.' :: r =>
        let frac := r.takeWhile (·.isDigit)
        -- `digits '.' digits?` needs an integer part; `'.' digits` needs a fraction
        (intPart ≠ [] ∨ frac ≠ [], r.drop frac.length)
      | r => (intPart ≠ [], r)
    let expOk :=
      match rest2 with
      | [] => true
      | e :: r =>
        if e = 'e' ∨ e = 'E' then
          let r' := match r with
            | '+' :: t => t
            | '-' :: t => t
            | t => t
          r' ≠ [] ∧ r'.all (·.isDigit)
        else false
    fracOk && expOk

/-- Rust `str::parse::<f64>().is_ok()`. -/
def rustF64IsOk (s : Str) : Bool :=
  match s with
  | '+' :: r => r ≠ [] && rustF64GrammarBody r
  | '-' :: r => r ≠ [] && rustF64GrammarBody r
  | r => r ≠ [] && rustF64GrammarBody r

/-- Exact rational value of a decimal float token (sign, digits, optional
fraction and exponent). `f64` parsing in the source rounds this value to the
nearest IEEE double; the branches of `parse_scalar_token` that consume it are
modelled over this exact value instead (no claim settled in this development
depends on a token that reaches those branches). `inf`/`nan` forms and
non-numeric tokens yield `none`. -/
def rustParseF64Q (s : Str) : Option ℚ :=
  let (sign, t) : ℚ × Str := match s with
    | '+' :: r => (1, r)
    | '-' :: r => (-1, r)
    | r => (1, r)
  let intPart := t.takeWhile (·.isDigit)
  let rest1 := t.drop intPart.length
  let (fracDigits, rest2) : Str × Str :=
    match rest1 with
    | '.' :: r => (r.takeWhile (·.isDigit), r.drop (r.takeWhile (·.isDigit)).length)
    | r => ([], r)
  if intPart = [] ∧ fracDigits = [] then none
  else
    let expVal : Option Int :=
      match rest2 with
      | [] => some 0
      | e :: r =>
        if e = 'e' ∨ e = 'E' then
          match r with
          | '+' :: d => (digitsToNat? d).map (fun n => (n : Int))
          | '-' :: d => (digitsToNat? d).map (fun n => -(n : Int))
          | d => (digitsToNat? d).map (fun n => (n : Int))
        else none
    match expVal with
    | none => none
    | some e =>
      let mantissa : ℚ :=
        ((intPart.foldl (fun acc c => 10 * acc + (c.toNat - '0'.toNat)) 0 : Nat) : ℚ) +
          (((fracDigits.foldl (fun acc c => 10 * acc + (c.toNat - '0'.toNat)) 0 : Nat) : ℚ) /
            (10 : ℚ) ^ fracDigits.length)
      some (sign * mantissa * (10 : ℚ) ^ e)

/-! ## Encoder primitives (`encode/primitives.rs`) -/

/-- `primitives::delimiter_char`. -/
def delimiterChar : Delimiter → Char
  | .comma => ','
  | .tab => '\t'
  | .pipe => '|'

/-- `primitives::delimiter_symbol`: comma is represented by absence. -/
def delimiterSymbol : Delimiter → Option Char
  | .comma => none
  | .tab => some '\t'
  | .pipe => some '|'

/-- Decimal digits of a `Nat` (for Rust `Display` of unsigned integers). -/
def natToStr (n : Nat) : Str := Nat.toDigits 10 n

/-- Rust `Display` of a signed integer. -/
def intToStr (i : Int) : Str :=
  if i < 0 then '-' :: natToStr i.natAbs else natToStr i.natAbs

/-- `primitives::format_bracket_segment`: `[N]` or `[N<d>]`. -/
def formatBracketSegment (len : Nat) (delim : Delimiter) : Str :=
  match delimiterSymbol delim with
  | some sym => '[' :: natToStr len ++ [sym, ']']
  | none => '[' :: natToStr len ++ [']']

/-- `primitives::format_fields_segment`: `{f1<d>f2…}`. -/
def formatFieldsSegment (fields : List Str) (delim : Delimiter) : Str :=
  '{' :: (fields.intersperse [delimiterChar delim]).flatten ++ ['}']

/-- `primitives::format_tabular_header`: `[N]{f1,f2}:` (and delimiter forms). -/
def formatTabularHeader (len : Nat) (fields : List Str) (delim : Delimiter) : Str :=
  formatBracketSegment len delim ++ formatFieldsSegment fields delim ++ [':']

/-- `primitives::format_expanded_array_header`: `[N]:`. -/
def formatExpandedArrayHeader (len : Nat) (delim : Delimiter) : Str :=
  formatBracketSegment len delim ++ [':']

/-- `primitives::is_control`: below 0x20 or DEL. -/
def isControl (c : Char) : Bool :=
  c.toNat < 0x20 ∨ c.toNat = 0x7F

/-- `primitives::looks_like_literal`: reserved words, or (after Unicode
trim) a token whose remainder parses as `f64`, with one optional leading
sign inspected explicitly. -/
def looksLikeLiteral (s : Str) : Bool :=
  if s = "true".data ∨ s = "false".data ∨ s = "null".data then true
  else
    let sn := rustTrim s
    if sn.head? = some '+' ∨ sn.head? = some '-' then rustF64IsOk (sn.drop 1)
    else rustF64IsOk sn

/-- `primitives::needs_quotes`: the encoder's quoting decision for string
values. -/
def needsQuotes (s : Str) (delim : Delimiter) : Bool :=
  if s = [] then true
  else if s = ['-'] then true
  else if s.head? = some '-' then true
  else if s.head? = some ' ' ∨ s.getLast? = some ' ' then true
  else if s.contains (delimiterChar delim) then true
  else if s.contains ':' then true
  else if s.any (fun c => c = '[' ∨ c = ']' ∨ c = '{' ∨ c = '}') then true
  else if s.any (fun c => c = '"' ∨ c = '\\' ∨ isControl c) then true
  else looksLikeLiteral s

/-- Upper-case hex digit. -/
def hexDigitUpper (n : Nat) : Char :=
  if n < 10 then Char.ofNat ('0'.toNat + n) else Char.ofNat ('A'.toNat + n - 10)

/-- Four-digit upper-case hex rendering used by `\uXXXX` escapes. -/
def toHex4 (n : Nat) : Str :=
  [hexDigitUpper (n / 4096 % 16), hexDigitUpper (n / 256 % 16),
   hexDigitUpper (n / 16 % 16), hexDigitUpper (n % 16)]

/-- `primitives::escape_and_quote`. -/
def escapeAndQuote (s : Str) : Str :=
  '"' :: (s.flatMap (fun c =>
    if c = '"' then ['\\', '"']
    else if c = '\\' then ['\\', '\\']
    else if c = '\n' then ['\\', 'n']
    else if c = '\r' then ['\\', 'r']
    else if c = '\t' then ['\\', 't']
    else if isControl c then '\\' :: 'u' :: toHex4 c.toNat
    else [c])) ++ ['"']

/-- `primitives::format_string`. -/
def formatString (s : Str) (delim : Delimiter) : Str :=
  if needsQuotes s delim then escapeAndQuote s else s

/-- `primitives::key_needs_quotes`: a key may be unquoted iff it matches
`[A-Za-z_][A-Za-z0-9_.]*`. -/
def keyNeedsQuotes (s : Str) : Bool :=
  match s with
  | [] => true
  | c :: rest =>
    -- `Char.isAlpha`/`Char.isAlphanum` are exactly the ASCII classes used here
    if ¬c.isAlpha ∧ c ≠ '_' then true
    else rest.any (fun c => ¬(c.isAlphanum ∨ c = '_' ∨ c = '.'))

/-- `primitives::format_key`. -/
def formatKey (s : Str) : Str :=
  if keyNeedsQuotes s then escapeAndQuote s else s

/-- `primitives::format_bool`. -/
def formatBool (b : Bool) : Str :=
  if b then "true".data else "false".data

/-- `primitives::format_null`. -/
def formatNull : Str := "null".data

/-! ## Parser token helpers (`decode/parser.rs`, free functions) -/

/-- `parser::trim_spaces_only`: strip spaces but not tabs. -/
def trimSpacesOnly (s : Str) : Str :=
  (s.dropWhile (· = ' ')).reverse.dropWhile (· = ' ') |>.reverse

/-- `parser::is_quoted_token`. -/
def isQuotedToken (s : Str) : Bool :=
  let t := trimAscii s
  t.head? = some '"' ∧ t.getLast? = some '"' ∧ 2 ≤ t.length

/-- `parser::token_requires_quotes`: delegate to the encoder's
`needs_quotes` with the delimiter char mapped back (unknown chars fall back
to comma). -/
def tokenRequiresQuotes (s : Str) (dch : Char) : Bool :=
  let delim : Delimiter :=
    if dch = ',' then .comma
    else if dch = '\t' then .tab
    else if dch = '|' then .pipe
    else .comma
  needsQuotes s delim

/-- `parser::is_control_char`. -/
def isControlChar (c : Char) : Bool :=
  c.toNat < 0x20 ∨ c.toNat = 0x7F

/-- `parser::cell_token_requires_quotes`: the stricter row-cell check. -/
def cellTokenRequiresQuotes (s : Str) (dch : Char) : Bool :=
  if s = [] then true
  else
    let t := trimAscii s
    if t = [] then true
    else if t.contains dch then true
    else if t.contains ':' then true
    else if t.any (fun c => c = '"' ∨ c = '\\' ∨ isControlChar c) then true
    else if t.head? = some ' ' ∨ t.getLast? = some ' ' then true
    else if t = ['-'] then true
    else if t.head? = some '-' ∧ ¬rustF64IsOk t then true
    else if t.head? = some '+' then true
    else false

/-- `number::has_forbidden_leading_zeros`. -/
def hasForbiddenLeadingZeros (token : Str) : Bool :=
  let token := rustTrim token
  if token = [] then false
  else
    let token := match token with
      | '-' :: r => r
      | r => r
    let token := match token with
      | '+' :: r => r
      | r => r
    if token.length ≤ 1 then false
    else
      match token with
      | c0 :: c1 :: _ =>
        if c0 ≠ '0' then false
        else if c1 = '.' ∨ c1 = 'e' ∨ c1 = 'E' then false
        else true
      | _ => false

/-- `parser::hex_val`. -/
def hexVal (c : Char) : Option Nat :=
  if '0' ≤ c ∧ c ≤ '9' then some (c.toNat - '0'.toNat)
  else if 'a' ≤ c ∧ c ≤ 'f' then some (10 + c.toNat - 'a'.toNat)
  else if 'A' ≤ c ∧ c ≤ 'F' then some (10 + c.toNat - 'A'.toNat)
  else none

/-- `parser::StringParseError`. -/
inductive StringParseError where
  | unterminated
  | invalidEscape
  deriving Repr, DecidableEq

/-- Escape processing for the interior of a quoted string
(the loop of `parser::try_unescape_json_string`); `none` = invalid escape. -/
def unescapeInnerChars : Str → Option Str
  | [] => some []
  | c :: rest =>
    if c = '\\' then
      match rest with
      | [] => none
      | e :: r2 =>
        if e = '"' then ('"' :: ·) <$> unescapeInnerChars r2
        else if e = '\\' then ('\\' :: ·) <$> unescapeInnerChars r2
        else if e = '/' then ('/' :: ·) <$> unescapeInnerChars r2
        else if e = 'b' then ('\x08' :: ·) <$> unescapeInnerChars r2
        else if e = 'f' then ('\x0C' :: ·) <$> unescapeInnerChars r2
        else if e = 'n' then ('\n' :: ·) <$> unescapeInnerChars r2
        else if e = 'r' then ('\r' :: ·) <$> unescapeInnerChars r2
        else if e = 't' then ('\t' :: ·) <$> unescapeInnerChars r2
        else if e = 'u' then
          match r2 with
          | d1 :: d2 :: d3 :: d4 :: r6 =>
            match hexVal d1, hexVal d2, hexVal d3, hexVal d4 with
            | some h1, some h2, some h3, some h4 =>
              let code := ((h1 * 16 + h2) * 16 + h3) * 16 + h4
              -- `char::from_u32` rejects surrogates (a 4-digit code is ≤ 0xFFFF)
              if 0xD800 ≤ code ∧ code ≤ 0xDFFF then none
              else (Char.ofNat code :: ·) <$> unescapeInnerChars r6
            | _, _, _, _ => none
          | _ => none
        else none
    else (c :: ·) <$> unescapeInnerChars rest

/-- `parser::try_unescape_json_string`. -/
def tryUnescapeJsonString (s : Str) : Except StringParseError Str :=
  if s.head? ≠ some '"' then .error .unterminated
  else if s.length < 2 ∨ s.getLast? ≠ some '"' then .error .unterminated
  else
    match unescapeInnerChars (s.drop 1 |>.dropLast) with
    | some out => .ok out
    | none => .error .invalidEscape

/-- `parser::NumHint`. -/
inductive NumHint where
  | intSigned
  | intUnsigned
  | float
  deriving Repr, DecidableEq

/-- Loop of `parser::classify_numeric_hint` over the digits after the
optional sign. State: `(hasDot, hasExp, inExponent)`. -/
def classifyNumericAux : Str → Bool → Bool → Bool → Option (Bool × Bool)
  | [], hasDot, hasExp, _ => some (hasDot, hasExp)
  | c :: rest, hasDot, hasExp, inExponent =>
    if '0' ≤ c ∧ c ≤ '9' then classifyNumericAux rest hasDot hasExp inExponent
    else if c = '.' then
      if inExponent then none else classifyNumericAux rest true hasExp inExponent
    else if c = 'e' ∨ c = 'E' then
      if hasExp then none else classifyNumericAux rest hasDot true true
    else if c = '-' ∨ c = '+' then
      if ¬inExponent then none else classifyNumericAux rest hasDot hasExp false
    else none

/-- `parser::classify_numeric_hint`. -/
def classifyNumericHint (s : Str) : Option NumHint :=
  match s with
  | [] => none
  | c0 :: _ =>
    if c0 = '"' then none
    else
      let body := if c0 = '-' ∨ c0 = '+' then s.drop 1 else s
      if body = [] then none
      else
        match classifyNumericAux body false false false with
        | none => none
        | some (hasDot, hasExp) =>
          if hasDot ∨ hasExp then some .float
          else if c0 = '-' then some .intSigned
          else some .intUnsigned

/-! ## Array header grammar (`decode/parser.rs`, free functions) -/

/-- State machine of `parser::find_unquoted_bracket`. -/
def findUnquotedBracketAux : Str → Bool → Bool → Nat → Option Nat
  | [], _, _, _ => none
  | b :: rest, inQuote, escape, i =>
    if escape then findUnquotedBracketAux rest inQuote false (i + 1)
    else if inQuote then
      if b = '\\' then findUnquotedBracketAux rest true true (i + 1)
      else if b = '"' then findUnquotedBracketAux rest false false (i + 1)
      else findUnquotedBracketAux rest true false (i + 1)
    else
      if b = '"' then findUnquotedBracketAux rest true false (i + 1)
      else if b = '[' then some i
      else findUnquotedBracketAux rest false false (i + 1)

/-- `parser::find_unquoted_bracket`: first `[` outside quotes. -/
def findUnquotedBracket (s : Str) : Option Nat :=
  findUnquotedBracketAux s false false 0

/-- Depth loop of `parser::find_matching_bracket` (not quote aware). -/
def findMatchingBracketAux : Str → Int → Nat → Option Nat
  | [], _, _ => none
  | b :: rest, depth, i =>
    if b = '[' then findMatchingBracketAux rest (depth + 1) (i + 1)
    else if b = ']' then
      if depth - 1 = 0 then some i else findMatchingBracketAux rest (depth - 1) (i + 1)
    else findMatchingBracketAux rest depth (i + 1)

/-- `parser::find_matching_bracket`. -/
def findMatchingBracket (s : Str) (start : Nat) : Option Nat :=
  if s.length ≤ start ∨ (s.drop start).head? ≠ some '[' then none
  else (findMatchingBracketAux (s.drop start) 0 0).map (start + ·)

/-- Depth loop of `parser::find_matching_brace` (quote aware). -/
def findMatchingBraceAux : Str → Bool → Bool → Int → Nat → Option Nat
  | [], _, _, _, _ => none
  | b :: rest, inQuote, escape, depth, i =>
    if escape then findMatchingBraceAux rest inQuote false depth (i + 1)
    else if inQuote then
      if b = '\\' then findMatchingBraceAux rest true true depth (i + 1)
      else if b = '"' then findMatchingBraceAux rest false false depth (i + 1)
      else findMatchingBraceAux rest true false depth (i + 1)
    else
      if b = '"' then findMatchingBraceAux rest true false depth (i + 1)
      else if b = '{' then findMatchingBraceAux rest false false (depth + 1) (i + 1)
      else if b = '}' then
        if depth - 1 = 0 then some i
        else findMatchingBraceAux rest false false (depth - 1) (i + 1)
      else findMatchingBraceAux rest false false depth (i + 1)

/-- `parser::find_matching_brace`. -/
def findMatchingBrace (s : Str) (start : Nat) : Option Nat :=
  if s.length ≤ start ∨ (s.drop start).head? ≠ some '{' then none
  else (findMatchingBraceAux (s.drop start) false false 0 0).map (start + ·)

/-- Count loop of `parser::check_delimiter_mismatch`:
`(comma_count, tab_count, pipe_count)` of unquoted occurrences. -/
def cdmCounts : Str → Bool → Bool → Nat × Nat × Nat → Nat × Nat × Nat
  | [], _, _, counts => counts
  | b :: rest, inQuote, escape, (cc, tc, pc) =>
    if escape then cdmCounts rest inQuote false (cc, tc, pc)
    else if inQuote then
      if b = '\\' then cdmCounts rest true true (cc, tc, pc)
      else if b = '"' then cdmCounts rest false false (cc, tc, pc)
      else cdmCounts rest true false (cc, tc, pc)
    else
      if b = '"' then cdmCounts rest true false (cc, tc, pc)
      else if b = ',' then cdmCounts rest false false (cc + 1, tc, pc)
      else if b = '\t' then cdmCounts rest false false (cc, tc + 1, pc)
      else if b = '|' then cdmCounts rest false false (cc, tc, pc + 1)
      else cdmCounts rest false false (cc, tc, pc)

/-- `parser::check_delimiter_mismatch`. -/
def checkDelimiterMismatch (s : Str) (declared : Char) : Bool :=
  let (cc, tc, pc) := cdmCounts s false false (0, 0, 0)
  if declared = ',' then (0 < tc ∨ 0 < pc) ∧ cc = 0
  else if declared = '\t' then 0 < cc ∧ tc = 0
  else if declared = '|' then (0 < cc ∨ 0 < tc) ∧ pc = 0
  else false

/-- `parser::parse_bracket_content`: `N` or `N<delim>` (delim tab or pipe). -/
def parseBracketContent (s : Str) : Option (Nat × Char) :=
  let s := trimSpacesOnly s
  if s = [] then none
  else
    match s.getLast? with
    | none => none
    | some last =>
      if last = '\t' ∨ last = '|' then
        match rustParseUsize (rustTrim s.dropLast) with
        | some length => some (length, last)
        | none => none
      else
        match rustParseUsize s with
        | some length => some (length, ',')
        | none => none

/-- `parser::split_delim_aware` (portable variant; tokens are trimmed with
the parser's space/tab `trim_ascii`, empty tokens preserved). -/
def splitDelimAwareAux (delim : Char) : Str → Bool → Bool → Str → List Str → List Str
  | [], _, _, cur, acc => acc ++ [trimAscii cur.reverse]
  | b :: rest, inStr, escape, cur, acc =>
    if inStr then
      if escape then splitDelimAwareAux delim rest true false (b :: cur) acc
      else if b = '\\' then splitDelimAwareAux delim rest true true (b :: cur) acc
      else if b = '"' then splitDelimAwareAux delim rest false false (b :: cur) acc
      else splitDelimAwareAux delim rest true false (b :: cur) acc
    else
      if b = '"' then splitDelimAwareAux delim rest true false (b :: cur) acc
      else if b = delim then
        splitDelimAwareAux delim rest false false [] (acc ++ [trimAscii cur.reverse])
      else splitDelimAwareAux delim rest false false (b :: cur) acc

/-- `parser::split_delim_aware`. -/
def splitDelimAware (s : Str) (dch : Char) : List Str :=
  splitDelimAwareAux dch s false false [] []

/-- `parser::split_kv_quote_aware`: split `key: value` at the first colon
outside quotes (the automaton coincides with the scanner's
`find_unquoted_colon`); key is trimmed both sides, value on the left. -/
def splitKvQuoteAware (s : Str) : Option (Str × Str) :=
  match findUnquotedColon s with
  | some i => some (trimAscii (s.take i), trimAsciiStart (s.drop (i + 1)))
  | none => none

/-- `parser::parse_header`: legacy `@<delim> fields` header form. The source
slices off the first two bytes; on the ASCII delimiters this equals dropping
two characters. -/
def parseHeader (s : Str) : Option (Char × Str) :=
  match s with
  | '@' :: dch :: rest => some (dch, trimAsciiStart rest)
  | _ => none

/-- `parser::ArrayHeader`. -/
structure ArrayHeader where
  key : Option Str
  length : Nat
  delimiter : Char
  fields : Option (List Str)
  inlineValues : Option Str
  fieldsDelimiterMismatch : Bool
  deriving Repr, DecidableEq

/-- `parser::parse_array_header`: `key?[N<delim?>]{fields}?: inline?`. -/
def parseArrayHeader (s : Str) : Option ArrayHeader :=
  match findUnquotedBracket s with
  | none => none
  | some bracketStart =>
    match findMatchingBracket s bracketStart with
    | none => none
    | some bracketEnd =>
      let keyPart := trimAscii (s.take bracketStart)
      let key := if keyPart = [] then none else some keyPart
      match parseBracketContent ((s.drop (bracketStart + 1)).take (bracketEnd - bracketStart - 1)) with
      | none => none
      | some (length, delimiter) =>
        let afterBracket := s.drop (bracketEnd + 1)
        let fieldsPart : Option (Option (List Str) × Bool × Str) :=
          if afterBracket.head? = some '{' then
            match findMatchingBrace afterBracket 0 with
            | none => none
            | some fieldsEnd =>
              let fieldsContent := (afterBracket.drop 1).take (fieldsEnd - 1)
              let mismatch := checkDelimiterMismatch fieldsContent delimiter
              let fieldNames := splitDelimAware fieldsContent delimiter
              some (some fieldNames, mismatch, afterBracket.drop (fieldsEnd + 1))
          else some (none, false, afterBracket)
        match fieldsPart with
        | none => none
        | some (fields, mismatch, restAfterFields) =>
          if restAfterFields.head? ≠ some ':' then none
          else
            let afterColon := restAfterFields.drop 1
            let inlineValues :=
              if afterColon = [] then none else some (trimAsciiStart afterColon)
            some ⟨key, length, delimiter, fields, inlineValues, mismatch⟩

/-- `parser::parse_scalar_keyed_array_header`: synthesize a colon after the
bracket (and optional fields) segment, then reuse `parse_array_header`. -/
def parseScalarKeyedArrayHeader (s : Str) : Option ArrayHeader :=
  match findUnquotedBracket s with
  | none => none
  | some bracketStart =>
    match findMatchingBracket s bracketStart with
    | none => none
    | some bracketEnd =>
      let pos0 := bracketEnd + 1
      let posOpt : Option Nat :=
        if pos0 < s.length ∧ (s.drop pos0).head? = some '{' then
          match findMatchingBrace s pos0 with
          | none => none
          | some fieldsEnd => some (fieldsEnd + 1)
        else some pos0
      match posOpt with
      | none => none
      | some pos => parseArrayHeader (s.take pos ++ ':' :: s.drop pos)

/-- `parser::is_array_header_line`: a `[N]` or `[N<d>]` segment outside
quotes. (The source's `pos == content.len() - 1` test is on byte indices;
on the inputs where they differ the subsequent tab/pipe test fails under
both readings, so the character-level reading is observationally equal.) -/
def isArrayHeaderLine (s : Str) : Bool :=
  match findUnquotedBracket s with
  | none => false
  | some bracketStart =>
    match findMatchingBracket s bracketStart with
    | none => false
    | some bracketEnd =>
      let content := rustTrim ((s.drop (bracketStart + 1)).take (bracketEnd - bracketStart - 1))
      if content = [] then false
      else
        match content.findIdx? (fun c => ¬c.isDigit) with
        | none => (rustParseUsize content).isSome
        | some pos =>
          if pos = content.length - 1 then
            match content.getLast? with
            | some delim =>
              (delim = '\t' ∨ delim = '|') ∧ (rustParseUsize (content.take pos)).isSome
            | none => false
          else false

/-! ## Parser state (`decode/parser.rs`, `struct Parser`) -/

/-- `error::Error::Syntax`: the only error variant the parser produces. -/
structure SyntaxErr where
  line : Nat
  message : String
  deriving Repr, DecidableEq

/-- The `Parser` struct: scanned lines, cursor, strictness flag and the
first recorded error. -/
structure PState where
  lines : List ParsedLine
  idx : Nat
  strict : Bool
  error : Option SyntaxErr
  deriving Repr, DecidableEq

/-- `Parser::peek`. -/
def PState.peek (st : PState) : Option ParsedLine :=
  st.lines[st.idx]?

/-- `Parser::next`: advance the cursor (the source also returns the line,
which every call site re-reads via a prior `peek`). -/
def PState.bump (st : PState) : PState :=
  { st with idx := st.idx + 1 }

/-- Count of consecutive blank lines at the head of a line list. -/
def blankRun : List ParsedLine → Nat
  | [] => 0
  | l :: rest => if l.kind = .blank then blankRun rest + 1 else 0

/-- `Parser::skip_blanks`: advance the cursor past consecutive blanks. -/
def skipBlanks (st : PState) : PState :=
  { st with idx := st.idx + blankRun (st.lines.drop st.idx) }

/-- Error message text for string parse failures. -/
def strParseErrMsg : StringParseError → String
  | .unterminated => "unterminated string"
  | .invalidEscape => "invalid escape sequence"

/-- `Parser::parse_scalar_token_at_line`: classify one scalar token.
The `Float` / overflow branches are modelled over the exact rational value
(`rustParseF64Q`); `as u64` / `as i64` casts saturate as in Rust. -/
def parseScalarTokenAt (st : PState) (s : Str) (lineNo : Nat) : PState × Value :=
  if s.head? = some '"' then
    match tryUnescapeJsonString s with
    | .ok out => (st, .str out)
    | .error e =>
      if st.error = none then
        ({ st with error := some ⟨lineNo, strParseErrMsg e⟩ }, .str [])
      else (st, .str [])
  else if hasForbiddenLeadingZeros s then (st, .str s)
  else if s = "true".data then (st, .bool true)
  else if s = "false".data then (st, .bool false)
  else if s = "null".data then (st, .null)
  else
    -- fast path for pure integers (ASCII digits, optional leading '-')
    let fast : Option Value :=
      match s with
      | [] => none
      | '-' :: rest =>
        if rest ≠ [] ∧ rest.all (·.isDigit) then
          (rustParseI64 s).map (fun i => .num (.i64 i))
        else none
      | _ =>
        if s.all (·.isDigit) then (rustParseU64 s).map (fun u => .num (.u64 u))
        else none
    match fast with
    | some v => (st, v)
    | none =>
      match classifyNumericHint s with
      | some .float =>
        match rustParseF64Q s with
        | some q =>
          -- integer-valued finite floats normalize to integer variants
          if q.den = 1 then
            if 0 ≤ q then (st, .num (.u64 (min q.num.toNat (2 ^ 64 - 1))))
            else (st, .num (.i64 (max q.num (-(2 ^ 63 : Int)))))
          else (st, .num (.f64 q))
        | none => (st, .str s)
      | some .intSigned =>
        match rustParseI64 s with
        | some i => (st, .num (.i64 i))
        | none =>
          match rustParseF64Q s with
          | some q => (st, .num (.f64 q))
          | none => (st, .str s)
      | some .intUnsigned =>
        match rustParseU64 s with
        | some u => (st, .num (.u64 u))
        | none =>
          match rustParseF64Q s with
          | some q => (st, .num (.f64 q))
          | none => (st, .str s)
      | none => (st, .str s)

/-- `Parser::parse_scalar_token` (records errors at the current cursor). -/
def parseScalarToken (st : PState) (s : Str) : PState × Value :=
  parseScalarTokenAt st s st.idx

/-- The zero-width space sentinel (`path_expand::QUOTED_DOT_MARKER`). -/
def quotedDotMarker : Char := '\u200B'

/-- `Parser::parse_key_token_at_line`: unescape a quoted key and mark it
with the zero-width-space sentinel when its content contains a dot. -/
def parseKeyTokenAt (st : PState) (k : Str) (lineNo : Nat) : PState × Str :=
  if k.head? = some '"' then
    match tryUnescapeJsonString k with
    | .ok out =>
      if out.contains '.' then (st, quotedDotMarker :: out) else (st, out)
    | .error e =>
      if st.error = none then
        ({ st with error := some ⟨lineNo, strParseErrMsg e⟩ }, [])
      else (st, [])
  else (st, k)

/-- `Parser::parse_key_token`. -/
def parseKeyToken (st : PState) (k : Str) : PState × Str :=
  parseKeyTokenAt st k st.idx

/-- `Value::Null` discriminator (`matches!(v, Value::Null)`). -/
def Value.isNull : Value → Bool
  | .null => true
  | _ => false

/-- Map `Parser::parse_key_token` across a token list, threading state. -/
def parseKeyTokens (st : PState) : List Str → PState × List Str
  | [] => (st, [])
  | t :: rest =>
    let (st, k) := parseKeyToken st t
    let (st, ks) := parseKeyTokens st rest
    (st, k :: ks)

/-- Map `Parser::parse_scalar_token` across a token list, threading state. -/
def parseScalarTokens (st : PState) : List Str → PState × List Value
  | [] => (st, [])
  | t :: rest =>
    let (st, v) := parseScalarToken st t
    let (st, vs) := parseScalarTokens st rest
    (st, v :: vs)

/-- Build one row object: pair header keys with cells, missing cells
replaced by `defaultCell` (`"null"` in the legacy loops, `""` in
`parse_tabular_rows`). -/
def buildRowObj (st : PState) (headerKeys : List Str) (cells : List Str)
    (defaultCell : Str) (i : Nat) : PState × List (Str × Value) :=
  match headerKeys with
  | [] => (st, [])
  | hk :: rest =>
    let cell := (cells[i]?).getD defaultCell
    let (st, v) := parseScalarToken st cell
    let (st, om) := buildRowObj st rest cells defaultCell (i + 1)
    (st, (hk, v) :: om)

/-- Rust `str::trim_end` (Unicode whitespace). -/
def rustTrimEnd (s : Str) : Str :=
  s.reverse.dropWhile rustIsWhitespace |>.reverse

/-- The duplicate-header-key scan: for each index `i` in order, if a later
equal key exists the error is overwritten (the source's inner `break` only
leaves the inner loop). -/
def dupKeyCheck (st : PState) (keys : List Str) : PState :=
  (List.range keys.length).foldl
    (fun st i =>
      match keys[i]? with
      | some ki =>
        if (keys.drop (i + 1)).contains ki then
          { st with error := some ⟨st.idx, "duplicate header key: " ++ String.mk ki⟩ }
        else st
      | none => st)
    st

/-- The strict-mode header checks shared by the two legacy `@`-table sites
(empty header, unquoted tokens requiring quotes, duplicate keys; each
assignment overwrites `error` as in the source). -/
def legacyHeaderStrictChecks (st : PState) (rawTokens headerKeys : List Str)
    (dch : Char) : PState :=
  if st.strict then
    let st :=
      if headerKeys = [] then
        { st with error := some ⟨st.idx, "empty tabular header"⟩ }
      else st
    let st :=
      match rawTokens.find? (fun t => ¬isQuotedToken t ∧ tokenRequiresQuotes t dch) with
      | some htok =>
        { st with
          error := some ⟨st.idx, "unquoted header token requires quotes: " ++ String.mk htok⟩ }
      | none => st
    dupKeyCheck st headerKeys
  else st

/-! ## The recursive parser (`decode/parser.rs`, `impl Parser`)

Every function takes a `fuel` argument and recurses only on its
predecessor; in the source, each loop iteration and each recursive descent
first consumes at least one scanned line, so the recursion depth (and hence
the fuel needed) is bounded by the number of scanned lines — the top-level
wrapper supplies `(lines + 2)²`, which strictly dominates that bound.
Exhausted fuel (unreachable under that bound) returns `Value.null`
respectively the accumulator built so far. -/

mutual

/-- `Parser::parse_array`. -/
def parseArray (fuel : Nat) (st : PState) (indent : Nat) : PState × Value :=
  match fuel with
  | 0 => (st, .null)
  | fuel + 1 =>
    let (st, arr) := parseArrayLoop fuel st indent [] false
    (st, .arr arr)
termination_by structural fuel

/-- The loop of `Parser::parse_array` (accumulator `arr`, flag
`inside_array`). -/
def parseArrayLoop (fuel : Nat) (st : PState) (indent : Nat)
    (arr : List Value) (insideArray : Bool) : PState × List Value :=
  match fuel with
  | 0 => (st, arr)
  | fuel + 1 =>
    -- strict: blank line between items still belonging to this array
    let st :=
      if st.strict ∧ insideArray then
        match st.peek with
        | some bl =>
          if bl.kind = .blank then
            let st2 := skipBlanks st
            let isInside : Bool :=
              match st2.peek with
              | some next =>
                next.indent == indent && (match next.kind with
                  | .listItem _ => true
                  | _ => false)
              | none => false
            if isInside then
              { st with error := some ⟨st.idx + 1, "blank line inside array"⟩ }
            else st
          else st
        | none => st
      else st
    let st := skipBlanks st
    match st.peek with
    | none => (st, arr)
    | some line =>
      if line.indent ≠ indent then (st, arr)
      else
        match line.kind with
        | .listItem itemVal =>
          let st := st.bump
          match itemVal with
          | some vs =>
            -- 1) array headers embedded in list item values
            let headerOpt :=
              if isArrayHeaderLine vs ∨ vs.head? = some '[' then parseArrayHeader vs
              else none
            match headerOpt with
            | some header =>
              match header.key with
              | some key =>
                let (st, keyParsed) := parseKeyToken st key
                let childIndent := indent + 2
                let (st, v) := parseKeyedArrayValue fuel st header
                let (st, restVal) := parseObject fuel st childIndent
                let map :=
                  match restVal with
                  | .obj rest => (keyParsed, v) :: rest
                  | _ => [(keyParsed, v)]
                parseArrayLoop fuel st indent (arr ++ [.obj map]) true
              | none =>
                match header.fields with
                | some fields =>
                  let headerLineNo := st.idx
                  let rowIndent := ((st.peek).map (·.indent)).getD (indent + 2)
                  let (st, v) := parseTabularRows fuel st header.length header.delimiter
                    fields rowIndent headerLineNo
                  parseArrayLoop fuel st indent (arr ++ [v]) true
                | none =>
                  match header.inlineValues with
                  | some inl =>
                    if inl ≠ [] then
                      let values := splitDelimAware inl header.delimiter
                      let (st, vals) := parseScalarTokens st values
                      parseArrayLoop fuel st indent (arr ++ [.arr vals]) true
                    else if header.length = 0 then
                      parseArrayLoop fuel st indent (arr ++ [.arr []]) true
                    else
                      let childIndent := ((st.peek).map (·.indent)).getD (indent + 2)
                      let (st, v) := parseArray fuel st childIndent
                      parseArrayLoop fuel st indent (arr ++ [v]) true
                  | none =>
                    if header.length = 0 then
                      parseArrayLoop fuel st indent (arr ++ [.arr []]) true
                    else
                      let childIndent := ((st.peek).map (·.indent)).getD (indent + 2)
                      let (st, v) := parseArray fuel st childIndent
                      parseArrayLoop fuel st indent (arr ++ [v]) true
            | none =>
              -- 2) object-as-list-item: "- key: value"
              match splitKvQuoteAware vs with
              | some (kraw, vraw) =>
                let (st, key) := parseKeyToken st kraw
                let childIndent := indent + 2
                let (st, firstField) :=
                  if vraw = [] then
                    let (st, v) := parseNode fuel st childIndent
                    (st, (key, v))
                  else
                    let (st, v) := parseScalarToken st vraw
                    (st, (key, v))
                let (st, restVal) := parseObject fuel st childIndent
                let map :=
                  match restVal with
                  | .obj rest => firstField :: rest
                  | _ => [firstField]
                parseArrayLoop fuel st indent (arr ++ [.obj map]) true
              | none =>
                -- 3) fallback: scalar list item
                let (st, v) := parseScalarToken st vs
                parseArrayLoop fuel st indent (arr ++ [v]) true
          | none =>
            -- bare "-" list item
            let childIndent := indent + 2
            let (st, childVal) := parseNode fuel st childIndent
            let pushed := if childVal.isNull then Value.obj [] else childVal
            parseArrayLoop fuel st indent (arr ++ [pushed]) true
        | _ => (st, arr)
termination_by structural fuel

/-- `Parser::parse_object`. -/
def parseObject (fuel : Nat) (st : PState) (indent : Nat) : PState × Value :=
  match fuel with
  | 0 => (st, .null)
  | fuel + 1 =>
    let (st, map) := parseObjectLoop fuel st indent []
    (st, .obj map)
termination_by structural fuel

/-- The loop of `Parser::parse_object` (accumulator `map`). -/
def parseObjectLoop (fuel : Nat) (st : PState) (indent : Nat)
    (map : List (Str × Value)) : PState × List (Str × Value) :=
  match fuel with
  | 0 => (st, map)
  | fuel + 1 =>
    let st := skipBlanks st
    -- scalar keyed-array header lines like "key[N] v1,v2"
    let scalarHeader : Option ArrayHeader :=
      match st.peek with
      | some line =>
        if line.indent = indent then
          match line.kind with
          | .scalar s =>
            if isArrayHeaderLine s ∧ s.contains '[' then
              match parseScalarKeyedArrayHeader s with
              | some header => if header.key.isSome then some header else none
              | none => none
            else none
          | _ => none
        else none
      | none => none
    match scalarHeader with
    | some header =>
      let st := st.bump
      let (st, k) :=
        match header.key with
        | some key => parseKeyToken st key
        | none => (st, [])
      let (st, v) := parseKeyedArrayValue fuel st header
      parseObjectLoop fuel st indent (map ++ [(k, v)])
    | none =>
      match st.peek with
      | none => (st, map)
      | some line =>
        if line.indent ≠ indent then (st, map)
        else
          match line.kind with
          | .keyValue kref vref =>
            -- keyed array header like "key[3]: 1,2,3"
            let combined := kref ++ ':' :: ' ' :: vref
            match parseArrayHeader combined with
            | some header =>
              let st := st.bump
              let (st, k) :=
                match header.key with
                | some key => parseKeyToken st key
                | none => (st, [])
              let (st, v) := parseKeyedArrayValue fuel st header
              parseObjectLoop fuel st indent (map ++ [(k, v)])
            | none =>
              let st := st.bump
              let (st, k) := parseKeyToken st kref
              let (st, v) := parseScalarToken st vref
              parseObjectLoop fuel st indent (map ++ [(k, v)])
          | .keyOnly kref =>
            -- array header like "key[3]:" or "key[2]{id,name}:"
            match parseArrayHeader (kref ++ [':']) with
            | some header =>
              let st := st.bump
              let (st, k) :=
                match header.key with
                | some key => parseKeyToken st key
                | none => (st, [])
              let (st, v) := parseKeyedArrayValue fuel st header
              parseObjectLoop fuel st indent (map ++ [(k, v)])
            | none =>
              let st := st.bump
              let (st, k) := parseKeyToken st kref
              let childIndent := ((st.peek).map (·.indent)).getD (indent + 2)
              -- legacy "@"-header table as the child of this key
              let legacy : Option (Char × Str) :=
                match st.peek with
                | some nl =>
                  if nl.indent = childIndent ∧ indent < nl.indent then
                    match nl.kind with
                    | .scalar s0 => parseHeader s0
                    | _ => none
                  else none
                | none => none
              match legacy with
              | some (dch, headerStr) =>
                let (st, v) := legacyTable fuel st dch headerStr childIndent
                parseObjectLoop fuel st indent (map ++ [(k, v)])
              | none =>
                -- bare scalar after "key:" is a missing-colon error
                let st :=
                  match st.peek with
                  | some nl =>
                    if indent < nl.indent then
                      match nl.kind with
                      | .scalar s =>
                        if s.head? ≠ some '@' ∧ s.head? ≠ some '[' ∧ st.error = none then
                          { st with
                            error := some ⟨st.idx + 1, "missing colon in key-value context"⟩ }
                        else st
                      | _ => st
                    else st
                  | none => st
                let (st, v) := parseNode fuel st childIndent
                let pushed := if v.isNull then Value.obj [] else v
                parseObjectLoop fuel st indent (map ++ [(k, pushed)])
          | _ => (st, map)
termination_by structural fuel

/-- The legacy `@<delim>`-header table (the duplicated blocks in
`parse_object` and `parse_scalar_line`; they differ only in the row
indent). Performs the strict delimiter check, consumes the header line,
parses the header keys, runs the strict header checks, then the rows. -/
def legacyTable (fuel : Nat) (st : PState) (dch : Char) (headerStr : Str)
    (rowIndent : Nat) : PState × Value :=
  match fuel with
  | 0 => (st, .null)
  | fuel + 1 =>
    let st :=
      if st.strict ∧ ¬(dch = ',' ∨ dch = '\t' ∨ dch = '|') then
        { st with
          error := some ⟨st.idx + 1,
            "invalid header delimiter '" ++ String.mk [dch] ++
              "': expected ',', '\\t', or '|'"⟩ }
      else st
    let st := st.bump
    let rawTokens := splitDelimAware headerStr dch
    let (st, headerKeys) := parseKeyTokens st rawTokens
    let st := legacyHeaderStrictChecks st rawTokens headerKeys dch
    let (st, rows) := legacyRowsLoop fuel st dch headerKeys headerKeys.length rowIndent []
    let st :=
      if st.strict ∧ rows.isEmpty then
        { st with error := some ⟨st.idx, "empty table (no rows)"⟩ }
      else st
    (st, .arr rows)
termination_by structural fuel

/-- The row loop shared by the two legacy table blocks: rows are
`ListItem` lines at `rowIndent`; missing cells default to `"null"`. -/
def legacyRowsLoop (fuel : Nat) (st : PState) (dch : Char)
    (headerKeys : List Str) (expectedCells : Nat) (rowIndent : Nat)
    (rows : List Value) : PState × List Value :=
  match fuel with
  | 0 => (st, rows)
  | fuel + 1 =>
    let st :=
      if st.strict then
        match st.peek with
        | some bl =>
          if bl.kind = .blank then
            { st with error := some ⟨st.idx + 1, "blank line inside table"⟩ }
          else st
        | none => st
      else st
    let st := skipBlanks st
    match st.peek with
    | none => (st, rows)
    | some rowl =>
      if rowl.indent ≠ rowIndent then (st, rows)
      else
        match rowl.kind with
        | .listItem (some rs) =>
          let rowLine := st.idx + 1
          let st := st.bump
          let st :=
            if st.strict ∧ (rustTrimEnd rs).getLast? = some dch then
              { st with error := some ⟨rowLine, "trailing delimiter in row"⟩ }
            else st
          let cells := splitDelimAware rs dch
          let st :=
            if st.strict ∧ st.error = none ∧ cells.length ≠ expectedCells then
              { st with
                error := some ⟨rowLine,
                  "row cell count " ++ toString cells.length ++
                    " does not match header " ++ toString expectedCells⟩ }
            else st
          let st :=
            if st.strict ∧ st.error = none then
              match cells.find? (fun c => ¬isQuotedToken c ∧ cellTokenRequiresQuotes c dch) with
              | some ctok =>
                { st with
                  error := some ⟨rowLine, "unquoted cell requires quotes: " ++ String.mk ctok⟩ }
              | none => st
            else st
          let (st, om) := buildRowObj st headerKeys cells "null".data 0
          legacyRowsLoop fuel st dch headerKeys expectedCells rowIndent (rows ++ [.obj om])
        | _ => (st, rows)
termination_by structural fuel

/-- `Parser::parse_scalar_line`. -/
def parseScalarLine (fuel : Nat) (st : PState) (indent : Nat) : PState × Value :=
  match fuel with
  | 0 => (st, .null)
  | fuel + 1 =>
    let sOpt : Option Str :=
      match st.peek with
      | some pl =>
        match pl.kind with
        | .scalar s => some s
        | _ => none
      | none => none
    let legacy : Option (Char × Str) :=
      match sOpt with
      | some s => parseHeader s
      | none => none
    match legacy with
    | some (dch, headerStr) => legacyTable fuel st dch headerStr indent
    | none =>
      let st := st.bump
      match sOpt with
      | some s => parseScalarToken st s
      | none => (st, .null)
termination_by structural fuel

/-- `Parser::parse_node`. -/
def parseNode (fuel : Nat) (st : PState) (minIndent : Nat) : PState × Value :=
  match fuel with
  | 0 => (st, .null)
  | fuel + 1 =>
    let st := skipBlanks st
    match st.peek with
    | none => (st, .null)
    | some line =>
      if line.indent < minIndent then (st, .null)
      else
        let indent := line.indent
        -- array headers at this indent level
        let special : Option (PState × Value) :=
          match line.kind with
          | .keyOnly key =>
            if key = "[0]".data then some (st.bump, .arr [])
            else if key = "{0}".data then some (st.bump, .obj [])
            else if key.head? = some '[' then
              match parseArrayHeader (key ++ [':']) with
              | some header =>
                if header.key = none then
                  let headerLineNo := st.idx + 1
                  let st := st.bump
                  match header.fields with
                  | some fields =>
                    some (parseTabularRows fuel st header.length header.delimiter
                      fields (indent + 2) headerLineNo)
                  | none =>
                    match header.inlineValues with
                    | some inl =>
                      if inl ≠ [] then
                        let values := splitDelimAware inl header.delimiter
                        let (st, vals) := parseScalarTokens st values
                        some (st, .arr vals)
                      else some (parseArray fuel st indent)
                    | none => some (parseArray fuel st indent)
                else none
              | none => none
            else none
          | .keyValue key value =>
            if key.head? = some '[' then
              match parseArrayHeader (key ++ ':' :: ' ' :: value) with
              | some header =>
                if header.key = none then
                  let st := st.bump
                  match header.inlineValues with
                  | some inl =>
                    if inl ≠ [] then
                      let values := splitDelimAware inl header.delimiter
                      let (st, vals) := parseScalarTokens st values
                      some (st, .arr vals)
                    else some (st, .arr [])
                  | none => some (st, .arr [])
                else none
              | none => none
            else none
          | _ => none
        match special with
        | some result => result
        | none =>
          match line.kind with
          | .listItem _ => parseArray fuel st indent
          | .keyValue _ _ => parseObject fuel st indent
          | .keyOnly _ => parseObject fuel st indent
          | .scalar _ => parseScalarLine fuel st indent
          | .blank => (st, .null)
termination_by structural fuel

/-- `Parser::parse_tabular_rows`: rows are `Scalar` lines at `rowIndent`;
missing cells default to `""`; the row/field count checks are not gated on
strict mode. -/
def parseTabularRows (fuel : Nat) (st : PState) (expectedCount : Nat)
    (delimiter : Char) (fields : List Str) (rowIndent headerLineNo : Nat) :
    PState × Value :=
  match fuel with
  | 0 => (st, .null)
  | fuel + 1 =>
    let (st, headerKeys) := parseKeyTokens st fields
    let (st, rows) := parseTabularRowsLoop fuel st expectedCount delimiter headerKeys
      headerKeys.length rowIndent [] false
    let st :=
      if rows.length ≠ expectedCount ∧ st.error = none then
        { st with
          error := some ⟨headerLineNo,
            "tabular array has " ++ toString rows.length ++
              " rows but header declares " ++ toString expectedCount⟩ }
      else st
    (st, .arr rows)
termination_by structural fuel

/-- The row loop of `Parser::parse_tabular_rows` (flag `inside_table`
threaded as the trailing argument of the accumulator). -/
def parseTabularRowsLoop (fuel : Nat) (st : PState) (expectedCount : Nat)
    (delimiter : Char) (headerKeys : List Str) (expectedCells : Nat)
    (rowIndent : Nat) (rows : List Value) (insideTable : Bool) :
    PState × List Value :=
  match fuel with
  | 0 => (st, rows)
  | fuel + 1 =>
    let st :=
      if st.strict ∧ insideTable then
        match st.peek with
        | some bl =>
          if bl.kind = .blank then
            let st2 := skipBlanks st
            let isInside : Bool :=
              match st2.peek with
              | some next =>
                next.indent == rowIndent && (match next.kind with
                  | .scalar _ => true
                  | _ => false)
              | none => false
            if isInside then
              { st with error := some ⟨st.idx + 1, "blank line inside table"⟩ }
            else st
          else st
        | none => st
      else st
    let st := skipBlanks st
    match st.peek with
    | none => (st, rows)
    | some line =>
      if line.indent ≠ rowIndent then (st, rows)
      else
        match line.kind with
        | .scalar rowText =>
          let rowLineNo := st.idx + 1
          let st := st.bump
          let st :=
            if st.strict ∧ st.error = none ∧ checkDelimiterMismatch rowText delimiter then
              { st with
                error := some ⟨rowLineNo,
                  "delimiter mismatch: row uses different delimiter than header declares"⟩ }
            else st
          let cells := splitDelimAware rowText delimiter
          let st :=
            if cells.length ≠ expectedCells ∧ st.error = none then
              { st with
                error := some ⟨rowLineNo,
                  "tabular row has " ++ toString cells.length ++
                    " values but header declares " ++ toString expectedCells ++ " fields"⟩ }
            else st
          let (st, om) := buildRowObj st headerKeys cells [] 0
          parseTabularRowsLoop fuel st expectedCount delimiter headerKeys expectedCells
            rowIndent (rows ++ [.obj om]) true
        | .blank =>
          let st := st.bump
          parseTabularRowsLoop fuel st expectedCount delimiter headerKeys expectedCells
            rowIndent rows insideTable
        | _ => (st, rows)
termination_by structural fuel

/-- `Parser::parse_keyed_array_value`. -/
def parseKeyedArrayValue (fuel : Nat) (st : PState) (header : ArrayHeader) :
    PState × Value :=
  match fuel with
  | 0 => (st, .null)
  | fuel + 1 =>
    let headerLineNo := st.idx
    let st :=
      if st.strict ∧ header.fieldsDelimiterMismatch ∧ st.error = none then
        { st with
          error := some ⟨headerLineNo, "mismatched delimiter between bracket and brace fields"⟩ }
      else st
    match header.fields with
    | some fields =>
      let rowIndent := ((st.peek).map (·.indent)).getD 2
      parseTabularRows fuel st header.length header.delimiter fields rowIndent headerLineNo
    | none =>
      match header.inlineValues with
      | some inl =>
        if inl ≠ [] then
          let values := splitDelimAware inl header.delimiter
          let st :=
            if values.length ≠ header.length ∧ st.error = none then
              { st with
                error := some ⟨headerLineNo,
                  "array length mismatch: header declares " ++ toString header.length ++
                    " elements but found " ++ toString values.length⟩ }
            else st
          let (st, vals) := parseScalarTokens st values
          (st, .arr vals)
        else
          let childIndent := ((st.peek).map (·.indent)).getD 2
          parseArrayWithLengthCheck fuel st childIndent header.length headerLineNo
      | none =>
        let childIndent := ((st.peek).map (·.indent)).getD 2
        parseArrayWithLengthCheck fuel st childIndent header.length headerLineNo
termination_by structural fuel

/-- `Parser::parse_root_array_with_header`. Note: the inline length
mismatch here overwrites any prior error and is not gated on strict mode. -/
def parseRootArrayWithHeader (fuel : Nat) (st : PState) (header : ArrayHeader) :
    PState × Value :=
  match fuel with
  | 0 => (st, .null)
  | fuel + 1 =>
    let lineNo := st.idx + 1
    let st := st.bump
    match header.fields with
    | some fields =>
      parseTabularRows fuel st header.length header.delimiter fields 2 lineNo
    | none =>
      match header.inlineValues with
      | some inl =>
        if inl ≠ [] then
          let values := splitDelimAware inl header.delimiter
          let st :=
            if values.length ≠ header.length then
              { st with
                error := some ⟨lineNo,
                  "array length mismatch: header declares " ++ toString header.length ++
                    " elements but found " ++ toString values.length⟩ }
            else st
          let (st, vals) := parseScalarTokens st values
          (st, .arr vals)
        else parseArrayWithLengthCheck fuel st 2 header.length lineNo
      | none => parseArrayWithLengthCheck fuel st 2 header.length lineNo
termination_by structural fuel

/-- `Parser::parse_array_with_length_check`. Also not gated on strict. -/
def parseArrayWithLengthCheck (fuel : Nat) (st : PState) (indent expectedLen headerLineNo : Nat) :
    PState × Value :=
  match fuel with
  | 0 => (st, .null)
  | fuel + 1 =>
    let (st, arrV) := parseArray fuel st indent
    let st :=
      match arrV with
      | .arr items =>
        if items.length ≠ expectedLen ∧ st.error = none then
          { st with
            error := some ⟨headerLineNo,
              "array length mismatch: header declares " ++ toString expectedLen ++
                " elements but found " ++ toString items.length⟩ }
        else st
      | _ => st
    (st, arrV)
termination_by structural fuel

/-- `Parser::parse_document`. -/
def parseDocument (fuel : Nat) (st : PState) : PState × Value :=
  match fuel with
  | 0 => (st, .null)
  | fuel + 1 =>
    let st := skipBlanks st
    match st.peek with
    | none => (st, .obj [])
    | some line =>
      let rootHeader : Option ArrayHeader :=
        if line.indent = 0 then
          match line.kind with
          | .keyOnly key =>
            if key = "{0}".data then none -- handled below
            else if isArrayHeaderLine key ∨ key.head? = some '[' then
              match parseArrayHeader (key ++ [':']) with
              | some header => if header.key = none then some header else none
              | none => none
            else none
          | .keyValue key value =>
            let combined := key ++ ':' :: ' ' :: value
            if isArrayHeaderLine combined ∨ key.head? = some '[' then
              match parseArrayHeader combined with
              | some header => if header.key = none then some header else none
              | none => none
            else none
          | .scalar s =>
            if isArrayHeaderLine s ∨ s.head? = some '[' then parseArrayHeader s
            else none
          | _ => none
        else none
      let emptyRoot : Bool :=
        line.indent == 0 && (match line.kind with
          | .keyOnly key => key == "{0}".data
          | _ => false)
      if emptyRoot then (st.bump, .obj [])
      else
        match rootHeader with
        | some header => parseRootArrayWithHeader fuel st header
        | none =>
          let indent := line.indent
          let (st, result) := parseNode fuel st indent
          let st :=
            if st.strict ∧ st.error = none then
              let st := skipBlanks st
              match st.peek with
              | some nextLine =>
                if nextLine.indent == indent && (match nextLine.kind with
                    | .scalar _ => true
                    | _ => false) then
                  { st with
                    error := some ⟨st.idx + 1, "two primitives at root depth in strict mode"⟩ }
                else st
              | none => st
            else st
          (st, result)

termination_by structural fuel

end

/-- Fuel supplied to the parser: every loop iteration and every recursive
descent in the source first consumes at least one scanned line, so the
number of nested/successive fueled calls on `n` lines is under `(n+2)²`. -/
def parserFuel (lines : List ParsedLine) : Nat :=
  (lines.length + 2) * (lines.length + 2)

/-- `parser::parse_to_value_with_strict`: run `parse_document` on the
scanned input and surface the first recorded error. -/
def parseToValueWithStrict (input : Str) (strict : Bool) : Except SyntaxErr Value :=
  let lines := scan input
  let st : PState := ⟨lines, 0, strict, none⟩
  let (st, v) := parseDocument (parserFuel lines) st
  match st.error with
  | some e => .error e
  | none => .ok v

/-! ## Strict indentation validation (`decode/validation.rs`) -/

/-- Loop of `validation::validate_indentation` (the raw-line-less legacy
variant that `decode_from_str` invokes): blank lines are skipped; an indent
increase between consecutive non-blank lines must be exactly `+2` and a
decrease must be an even step. It never sees tab characters (the scanner
only counts spaces) and does not consult `opts.indent`. -/
def validateIndentationAux : List ParsedLine → Nat → Option Nat → Except SyntaxErr Unit
  | [], _, _ => .ok ()
  | pl :: rest, idx, prev =>
    if pl.kind = .blank then validateIndentationAux rest (idx + 1) prev
    else
      match prev with
      | some pi =>
        if pi < pl.indent then
          if pl.indent ≠ pi + 2 then
            .error ⟨idx + 1,
              "indent increase must be +2, got " ++ toString pi ++ "->" ++ toString pl.indent⟩
          else validateIndentationAux rest (idx + 1) (some pl.indent)
        else if pl.indent < pi ∧ (pi - pl.indent) % 2 ≠ 0 then
          .error ⟨idx + 1,
            "indent decrease must be multiple of 2, got " ++ toString pi ++ "->" ++
              toString pl.indent⟩
        else validateIndentationAux rest (idx + 1) (some pl.indent)
      | none => validateIndentationAux rest (idx + 1) (some pl.indent)

/-- `validation::validate_indentation`. -/
def validateIndentation (lines : List ParsedLine) : Except SyntaxErr Unit :=
  validateIndentationAux lines 0 none

/-- `lib.rs::decode_from_str` (core pipeline): strict mode first validates
indentation over the scanned lines, then the document is parsed with
`parse_to_value_with_strict`. (The source then converts the value through
`serde_json::from_value`, which is structure-preserving; `options.expand_paths`
is never consulted.) -/
def decodeFromStr (s : Str) (options : Options) : Except SyntaxErr Value :=
  match (if options.strict then validateIndentation (scan s) else .ok ()) with
  | .error e => .error e
  | .ok () => parseToValueWithStrict s options.strict

/-! ## Path expansion (`decode/path_expand.rs`) — implemented in the source
but never invoked by any decode entry point. -/

/-- `path_expand::is_valid_identifier`: `[A-Za-z_][A-Za-z0-9_]*`. -/
def isValidIdentifier (s : Str) : Bool :=
  match s with
  | [] => false
  | c :: rest => (c.isAlpha ∨ c = '_') ∧ rest.all (fun c => c.isAlphanum ∨ c = '_')

/-- Rust `str::split('.')` on a key. -/
def splitKeyDots (key : Str) : List Str :=
  key.splitOn '.'

/-- `path_expand::should_expand_key`. -/
def shouldExpandKey (key : Str) : Bool :=
  if key.head? = some quotedDotMarker then false
  else if ¬key.contains '.' then false
  else (splitKeyDots key).all isValidIdentifier

/-- `path_expand::build_nested_from_segments`. -/
def buildNestedFromSegments : List Str → Value → Value
  | [], v => v
  | [seg], v => .obj [(seg, v)]
  | seg :: rest, v => .obj [(seg, buildNestedFromSegments rest v)]

mutual

/-- `path_expand::deep_merge`: merge `(key, value)` into `target`;
object-vs-object merges deeply, any other clash errors in strict mode and
is last-writer-wins otherwise. -/
def deepMerge (target : List (Str × Value)) (key : Str) (value : Value)
    (strict : Bool) : Except String (List (Str × Value)) :=
  match target.findIdx? (fun p => p.1 == key) with
  | some idx =>
    match target[idx]? with
    | some (ekey, existing) =>
      match existing, value with
      | .obj existingObj, .obj newObj =>
        match deepMergeList existingObj newObj strict with
        | .ok merged => .ok (target.set idx (ekey, .obj merged))
        | .error e => .error e
      | _, _ =>
        if strict then
          .error ("path expansion conflict: key '" ++ String.mk key ++
            "' has conflicting types")
        else .ok (target.set idx (ekey, value))
    | none => .ok target
  | none => .ok (target ++ [(key, value)])

/-- The fold of `deep_merge` over the entries of a new object. -/
def deepMergeList (acc : List (Str × Value)) (entries : List (Str × Value))
    (strict : Bool) : Except String (List (Str × Value)) :=
  match entries with
  | [] => .ok acc
  | (k, v) :: rest =>
    match deepMerge acc k v strict with
    | .ok accNext => deepMergeList accNext rest strict
    | .error e => .error e

end

mutual

/-- `path_expand::expand_paths`: recursively expand every unquoted dotted
key into nested objects; marked (quoted) keys have the sentinel stripped
and stay atomic. -/
def expandPaths (value : Value) (strict : Bool) : Except String Value :=
  match value with
  | .obj entries =>
    match expandPathsEntries entries strict [] with
    | .ok result => .ok (.obj result)
    | .error e => .error e
  | .arr items =>
    match expandPathsList items strict with
    | .ok result => .ok (.arr result)
    | .error e => .error e
  | other => .ok other

/-- Entry loop of `expand_paths` over an object (accumulator `result`). -/
def expandPathsEntries (entries : List (Str × Value)) (strict : Bool)
    (result : List (Str × Value)) : Except String (List (Str × Value)) :=
  match entries with
  | [] => .ok result
  | (key, val) :: rest =>
    match expandPaths val strict with
    | .error e => .error e
    | .ok expandedVal =>
      let step : Except String (List (Str × Value)) :=
        if shouldExpandKey key then
          match buildNestedFromSegments (splitKeyDots key) expandedVal with
          | .obj nestedEntries => deepMergeList result nestedEntries strict
          | _ => .ok result
        else
          let cleanKey :=
            if key.head? = some quotedDotMarker then key.drop 1 else key
          deepMerge result cleanKey expandedVal strict
      match step with
      | .ok resultNext => expandPathsEntries rest strict resultNext
      | .error e => .error e

/-- Element loop of `expand_paths` over an array. -/
def expandPathsList (items : List Value) (strict : Bool) :
    Except String (List Value) :=
  match items with
  | [] => .ok []
  | item :: rest =>
    match expandPaths item strict with
    | .ok v =>
      match expandPathsList rest strict with
      | .ok vs => .ok (v :: vs)
      | .error e => .error e
    | .error e => .error e

end

/-! ## Writer (`encode/writer.rs`) — output accumulation; every operation
writes indent, content, then one LF. -/

/-- `LineWriter::line`. -/
def wLine (out : Str) (indent : Nat) (s : Str) : Str :=
  out ++ List.replicate indent ' ' ++ s ++ ['\n']

/-- `LineWriter::line_kv`. -/
def wLineKv (out : Str) (indent : Nat) (key value : Str) : Str :=
  out ++ List.replicate indent ' ' ++ key ++ ':' :: ' ' :: value ++ ['\n']

/-- `LineWriter::line_list_item`. -/
def wLineListItem (out : Str) (indent : Nat) (value : Str) : Str :=
  out ++ List.replicate indent ' ' ++ '-' :: ' ' :: value ++ ['\n']

/-- `LineWriter::line_key_only`. -/
def wLineKeyOnly (out : Str) (indent : Nat) (key : Str) : Str :=
  out ++ List.replicate indent ' ' ++ key ++ [':', '\n']

/-! ## Encoder (`encode/encoders.rs`, `encode/normalize.rs`,
`encode/mod.rs`)

The source's encoder walks `serde_json::Value`; per the spec's value
interface (§6) objects are iterated in insertion order, which the pair-list
`Value.obj` models directly. -/

/-- `serde_json` `Display` of a number. The `F64` case is `ryu` shortest
form in the source; it is modelled here over the exact rational and is not
reached by any theorem in this development. -/
def f64Display (q : ℚ) : Str :=
  intToStr q.num ++ (if q.den = 1 then ['.', '0'] else '/' :: natToStr q.den)

/-- Rust `Number::to_string()` as used by the encoder. -/
def numberToString : Number → Str
  | .i64 i => intToStr i
  | .u64 n => natToStr n
  | .f64 q => f64Display q

/-- `serde_json::Map::insert` on the pair-list model: replace the value at
an existing key in place, else append. -/
def mapInsert (m : List (Str × Value)) (k : Str) (v : Value) : List (Str × Value) :=
  match m.findIdx? (fun p => p.1 == k) with
  | some idx => m.set idx (k, v)
  | none => m ++ [(k, v)]

/-- `serde_json::Map::get`. -/
def objGet (m : List (Str × Value)) (k : Str) : Option Value :=
  (m.find? (fun p => p.1 == k)).map (·.2)

mutual

/-- `normalize::normalize_value`: a structural rebuild (the identity on
every reachable value; kept as a faithful port of the pass). -/
def normalizeValue : Value → Value
  | .null => .null
  | .bool b => .bool b
  | .num n => .num n
  | .str s => .str s
  | .arr a => .arr (normalizeList a)
  | .obj m => .obj (normalizeFields m [])

/-- Array loop of `normalize_value`. -/
def normalizeList : List Value → List Value
  | [] => []
  | v :: rest => normalizeValue v :: normalizeList rest

/-- Object loop of `normalize_value` (inserting into a fresh map). -/
def normalizeFields : List (Str × Value) → List (Str × Value) → List (Str × Value)
  | [], out => out
  | (k, v) :: rest, out => normalizeFields rest (mapInsert out k (normalizeValue v))

end

/-- `encoders::is_primitive_array`. -/
def isPrimitiveArray (items : List Value) : Bool :=
  items.all Value.isPrimitive

/-- The sorted view used by `is_tabular_array`'s order-insensitive key-set
comparison (`Vec::sort` on `String`; any total order gives the same
equality test, so the lexicographic order on `Str` is used). -/
def keySort (l : List Str) : List Str :=
  List.insertionSort (· ≤ ·) l

/-- Element loop of `encoders::is_tabular_array`: `keys` holds the first
element's key list once seen; later elements are compared against it
order-insensitively (sorted views) and must have primitive-only values. -/
def itaLoop : List Value → Option (List Str) → Option (List Str)
  | [], keys => keys
  | v :: rest, keys =>
    match v with
    | .obj m =>
      match keys with
      | some ks =>
        if keySort (m.map Prod.fst) = keySort ks then
          if m.all (fun p => p.2.isPrimitive) then itaLoop rest (some ks) else none
        else none
      | none =>
        if m.all (fun p => p.2.isPrimitive) then itaLoop rest (some (m.map Prod.fst))
        else none
    | _ => none

/-- `encoders::is_tabular_array`: `some keys` (first element's key order)
iff the array is encoded in tabular form. -/
def isTabularArray (arr : List Value) : Option (List Str) :=
  if arr.isEmpty then none else itaLoop arr none

/-- `encoders::format_primitive_value`. -/
def formatPrimitiveValue (v : Value) (delim : Delimiter) : Str :=
  match v with
  | .null => formatNull
  | .bool b => formatBool b
  | .num n => numberToString n
  | .str s => formatString s delim
  | _ => "null".data

/-- `encoders::join_with_delim`. -/
def joinWithDelim (cells : List Str) (dch : Char) : Str :=
  (cells.intersperse [dch]).flatten

/-- `encoders::key_needs_quotes` (local to `encoders.rs`): not a valid
`IdentifierSegment` `[A-Za-z_][A-Za-z0-9_]*`. -/
def encKeyNeedsQuotes (key : Str) : Bool :=
  match key with
  | [] => true
  | c :: rest =>
    if ¬c.isAlpha ∧ c ≠ '_' then true
    else rest.any (fun c => ¬(c.isAlphanum ∨ c = '_'))

/-- Walk of `encoders::try_fold_keys` down the chain of single-key objects.
Returns the extended segment list and the final value (`none` when the walk
stopped at a key that needs quotes). -/
def tryFoldWalk (fuel : Nat) (pathSegments : List Str)
    (currentObj : List (Str × Value)) (maxSegments : Nat) :
    List Str × Option Value :=
  match fuel with
  | 0 => (pathSegments, none)
  | fuel + 1 =>
    match currentObj with
    | [] => (pathSegments, none)
    | (k, v) :: _ =>
      if encKeyNeedsQuotes k then (pathSegments, none)
      else
        let segs := pathSegments ++ [k]
        if maxSegments ≤ segs.length then (segs, some v)
        else
          match v with
          | .obj inner =>
            if inner.length = 1 then tryFoldWalk fuel segs inner maxSegments
            else (segs, some v)
          | _ => (segs, some v)

/-- Navigation of `try_fold_keys` after a stop on a quoted key: follow the
intermediate segments through nested objects. -/
def tryFoldNav (navObj : List (Str × Value)) : List Str → Option (List (Str × Value))
  | [] => some navObj
  | seg :: rest =>
    match objGet navObj seg with
    | some (.obj inner) => tryFoldNav inner rest
    | _ => none

/-- `encoders::try_fold_keys`: collapse a chain of single-key objects into
a dotted path, bounded by `flatten_depth` (`usize::MAX` when absent), and
abandoned on sibling collision. -/
def tryFoldKeys (fuel : Nat) (initialKey : Str) (initialObj : List (Str × Value))
    (opts : Options) (siblingKeys : Option (List Str)) : Option (Str × Value) :=
  let maxSegments := opts.flattenDepth.getD (2 ^ 64 - 1)
  if maxSegments < 2 then none
  else if initialObj.length ≠ 1 then none
  else if encKeyNeedsQuotes initialKey then none
  else
    let (segs, finalValue) := tryFoldWalk fuel [initialKey] initialObj maxSegments
    if 2 ≤ segs.length then
      let foldedKey := (segs.intersperse ['.']).flatten
      let collides :=
        match siblingKeys with
        | some siblings => siblings.any (· == foldedKey)
        | none => false
      match finalValue with
      | some fv => if collides then none else some (foldedKey, fv)
      | none =>
        match tryFoldNav initialObj ((segs.drop 1).take (segs.length - 2)) with
        | some navObj =>
          match segs.getLast? with
          | some lastSeg =>
            match objGet navObj lastSeg with
            | some val => if collides then none else some (foldedKey, val)
            | none => none
          | none => none
        | none => none
    else none

/-- `encoders::try_fold_keys_no_collision`. -/
def tryFoldKeysNoCollision (fuel : Nat) (initialKey : Str)
    (initialObj : List (Str × Value)) (opts : Options) : Option (Str × Value) :=
  tryFoldKeys fuel initialKey initialObj opts none

mutual

/-- `encoders::encode_value`. -/
def encodeValue (fuel : Nat) (value : Value) (w : Str) (opts : Options)
    (indent : Nat) : Str :=
  match fuel with
  | 0 => w
  | fuel + 1 =>
    match value with
    | .null => wLine w indent formatNull
    | .bool b => wLine w indent (formatBool b)
    | .num n => wLine w indent (numberToString n)
    | .str s => wLine w indent (formatString s opts.delimiter)
    | .arr items => encodeArray fuel items w opts indent
    | .obj obj =>
      if obj.isEmpty then w
      else encodeFieldsCtx fuel obj w opts indent none
termination_by structural fuel

/-- Field loop: `encode_object_field_with_context` over each pair. -/
def encodeFieldsCtx (fuel : Nat) (fields : List (Str × Value)) (w : Str)
    (opts : Options) (indent : Nat) (siblings : Option (List Str)) : Str :=
  match fuel with
  | 0 => w
  | fuel + 1 =>
    match fields with
    | [] => w
    | (k, v) :: rest =>
      let w := encodeObjectFieldWithContext fuel k v w opts indent siblings
      encodeFieldsCtx fuel rest w opts indent siblings
termination_by structural fuel

/-- `encoders::encode_object_field_with_context`. -/
def encodeObjectFieldWithContext (fuel : Nat) (key : Str) (value : Value)
    (w : Str) (opts : Options) (indent : Nat) (siblings : Option (List Str)) : Str :=
  match fuel with
  | 0 => w
  | fuel + 1 =>
    let keyFmt := formatKey key
    let standard : Bool → Str := fun disableNestedFolding =>
      let nestedOpts :=
        if disableNestedFolding then { opts with keyFolding := KeyFolding.off } else opts
      match value with
      | .null => wLineKv w indent keyFmt formatNull
      | .bool b => wLineKv w indent keyFmt (formatBool b)
      | .num n => wLineKv w indent keyFmt (numberToString n)
      | .str s => wLineKv w indent keyFmt (formatString s opts.delimiter)
      | .arr items => encodeKeyedArray fuel keyFmt items w nestedOpts indent
      | .obj obj =>
        let w := wLineKeyOnly w indent keyFmt
        if obj.isEmpty then w
        else
          let siblingKeys := obj.map Prod.fst
          encodeFieldsCtx fuel obj w nestedOpts (indent + opts.indent) (some siblingKeys)
    let folded : Option (Option (Str × Value)) :=
      if opts.keyFolding = .safe then
        match value with
        | .obj obj =>
          match tryFoldKeysNoCollision fuel key obj opts with
          | some (foldedKey, finalValue) =>
            let hasCollision : Bool :=
              match siblings with
              | some s => s.any (· == foldedKey)
              | none => false
            if hasCollision then some none  -- collision: disable nested folding
            else some (some (foldedKey, finalValue))
          | none => none
        | _ => none
      else none
    match folded with
    | some (some (foldedKey, finalValue)) =>
      encodeFoldedValue fuel foldedKey finalValue w opts indent
    | some none => standard true
    | none => standard false
termination_by structural fuel

/-- `encoders::encode_folded_value` (further folding disabled beneath). -/
def encodeFoldedValue (fuel : Nat) (foldedKey : Str) (value : Value) (w : Str)
    (opts : Options) (indent : Nat) : Str :=
  match fuel with
  | 0 => w
  | fuel + 1 =>
    let nestedOpts := { opts with keyFolding := KeyFolding.off }
    match value with
    | .null => wLineKv w indent foldedKey formatNull
    | .bool b => wLineKv w indent foldedKey (formatBool b)
    | .num n => wLineKv w indent foldedKey (numberToString n)
    | .str s => wLineKv w indent foldedKey (formatString s opts.delimiter)
    | .arr items => encodeKeyedArray fuel foldedKey items w nestedOpts indent
    | .obj obj =>
      let w := wLineKeyOnly w indent foldedKey
      if obj.isEmpty then w
      else
        let siblingKeys := obj.map Prod.fst
        encodeFieldsCtx fuel obj w nestedOpts (indent + opts.indent) (some siblingKeys)
termination_by structural fuel

/-- `encoders::encode_keyed_array` (`key` is already formatted). -/
def encodeKeyedArray (fuel : Nat) (key : Str) (items : List Value) (w : Str)
    (opts : Options) (indent : Nat) : Str :=
  match fuel with
  | 0 => w
  | fuel + 1 =>
    let len := items.length
    let delim := opts.delimiter
    let dch := delimiterChar delim
    if items.isEmpty then
      wLine w indent (key ++ formatBracketSegment 0 delim ++ [':'])
    else
      match isTabularArray items with
      | some keys =>
        let fieldCells := keys.map formatKey
        let header := key ++ formatTabularHeader len fieldCells delim
        let w := wLine w indent header
        items.foldl
          (fun w item =>
            match item with
            | .obj obj =>
              let cells := keys.map (fun k =>
                formatPrimitiveValue ((objGet obj k).getD .null) delim)
              wLine w (indent + opts.indent) (joinWithDelim cells dch)
            | _ => w)  -- unreachable: tabular detection guaranteed objects
          w
      | none =>
        if isPrimitiveArray items then
          let values := items.map (fun v => formatPrimitiveValue v delim)
          let inline := joinWithDelim values dch
          wLine w indent (key ++ formatBracketSegment len delim ++ ':' :: ' ' :: inline)
        else
          let w := wLine w indent (key ++ formatExpandedArrayHeader len delim)
          encodeItems fuel items w opts (indent + opts.indent)
termination_by structural fuel

/-- `encoders::encode_array` (root arrays, no key prefix). -/
def encodeArray (fuel : Nat) (items : List Value) (w : Str) (opts : Options)
    (indent : Nat) : Str :=
  match fuel with
  | 0 => w
  | fuel + 1 =>
    let len := items.length
    let delim := opts.delimiter
    let dch := delimiterChar delim
    if items.isEmpty then
      wLine w indent (formatExpandedArrayHeader 0 delim)
    else
      match isTabularArray items with
      | some keys =>
        let fieldCells := keys.map formatKey
        let w := wLine w indent (formatTabularHeader len fieldCells delim)
        items.foldl
          (fun w item =>
            match item with
            | .obj obj =>
              let cells := keys.map (fun k =>
                formatPrimitiveValue ((objGet obj k).getD .null) delim)
              wLine w (indent + opts.indent) (joinWithDelim cells dch)
            | _ => w)
          w
      | none =>
        if isPrimitiveArray items then
          let values := items.map (fun v => formatPrimitiveValue v delim)
          let inline := joinWithDelim values dch
          wLine w indent (formatBracketSegment len delim ++ ':' :: ' ' :: inline)
        else
          let w := wLine w indent (formatExpandedArrayHeader len delim)
          encodeItems fuel items w opts (indent + opts.indent)
termination_by structural fuel

/-- Element loop: `encode_list_item` over each item. -/
def encodeItems (fuel : Nat) (items : List Value) (w : Str) (opts : Options)
    (indent : Nat) : Str :=
  match fuel with
  | 0 => w
  | fuel + 1 =>
    match items with
    | [] => w
    | item :: rest =>
      let w := encodeListItem fuel item w opts indent
      encodeItems fuel rest w opts indent
termination_by structural fuel

/-- `encoders::encode_list_item`. -/
def encodeListItem (fuel : Nat) (item : Value) (w : Str) (opts : Options)
    (indent : Nat) : Str :=
  match fuel with
  | 0 => w
  | fuel + 1 =>
    match item with
    | .null => wLineListItem w indent formatNull
    | .bool b => wLineListItem w indent (formatBool b)
    | .num n => wLineListItem w indent (numberToString n)
    | .str s => wLineListItem w indent (formatString s opts.delimiter)
    | .arr inner => encodeListItemArray fuel inner w opts indent
    | .obj obj => encodeListItemObject fuel obj w opts indent
termination_by structural fuel

/-- `encoders::encode_list_item_array`. -/
def encodeListItemArray (fuel : Nat) (items : List Value) (w : Str)
    (opts : Options) (indent : Nat) : Str :=
  match fuel with
  | 0 => w
  | fuel + 1 =>
    let len := items.length
    let delim := opts.delimiter
    let dch := delimiterChar delim
    if items.isEmpty then
      wLineListItem w indent (formatBracketSegment 0 delim ++ [':'])
    else if isPrimitiveArray items then
      let values := items.map (fun v => formatPrimitiveValue v delim)
      let inline := joinWithDelim values dch
      wLineListItem w indent (formatBracketSegment len delim ++ ':' :: ' ' :: inline)
    else
      let w := wLineListItem w indent (formatExpandedArrayHeader len delim)
      encodeItems fuel items w opts (indent + opts.indent)
termination_by structural fuel

/-- `encoders::encode_list_item_object` (§10: object as list item). -/
def encodeListItemObject (fuel : Nat) (obj : List (Str × Value)) (w : Str)
    (opts : Options) (indent : Nat) : Str :=
  match fuel with
  | 0 => w
  | fuel + 1 =>
    match obj with
    | [] => wLine w indent ['-']
    | (firstKey, firstValue) :: iterRest =>
      let firstKeyFmt := formatKey firstKey
      let delim := opts.delimiter
      let dch := delimiterChar delim
      let tabularFirst : Option (List Value × List Str) :=
        match firstValue with
        | .arr items =>
          match isTabularArray items with
          | some keys => some (items, keys)
          | none => none
        | _ => none
      match tabularFirst with
      | some (items, keys) =>
        -- §10 special case: tabular header on the hyphen line
        let fieldCells := keys.map formatKey
        let header := firstKeyFmt ++ formatTabularHeader items.length fieldCells delim
        let w := wLineListItem w indent header
        let w := items.foldl
          (fun w item =>
            match item with
            | .obj innerObj =>
              let cells := keys.map (fun k =>
                formatPrimitiveValue ((objGet innerObj k).getD .null) delim)
              wLine w (indent + 4) (joinWithDelim cells dch)
            | _ => w)
          w
        encodeFieldsCtx fuel iterRest w opts (indent + opts.indent) none
      | none =>
        let w :=
          match firstValue with
          | .null => wLine w indent ('-' :: ' ' :: firstKeyFmt ++ ':' :: ' ' :: formatNull)
          | .bool b => wLine w indent ('-' :: ' ' :: firstKeyFmt ++ ':' :: ' ' :: formatBool b)
          | .num n => wLine w indent ('-' :: ' ' :: firstKeyFmt ++ ':' :: ' ' :: numberToString n)
          | .str s =>
            wLine w indent
              ('-' :: ' ' :: firstKeyFmt ++ ':' :: ' ' :: formatString s opts.delimiter)
          | .arr items =>
            if items.isEmpty then
              wLine w indent
                ('-' :: ' ' :: firstKeyFmt ++ formatBracketSegment 0 delim ++ [':'])
            else if isPrimitiveArray items then
              let values := items.map (fun v => formatPrimitiveValue v delim)
              let inline := joinWithDelim values dch
              wLine w indent
                ('-' :: ' ' :: firstKeyFmt ++ formatBracketSegment items.length delim ++
                  ':' :: ' ' :: inline)
            else
              let w := wLine w indent
                ('-' :: ' ' :: firstKeyFmt ++ formatExpandedArrayHeader items.length delim)
              encodeItems fuel items w opts (indent + 4)
          | .obj innerObj =>
            let w := wLine w indent ('-' :: ' ' :: firstKeyFmt ++ [':'])
            if innerObj.isEmpty then w
            else encodeFieldsCtx fuel innerObj w opts (indent + 4) none
        encodeFieldsCtx fuel iterRest w opts (indent + opts.indent) none

termination_by structural fuel

end

mutual

/-- Node count of a value (computable size measure for the encoder fuel). -/
def valueSize : Value → Nat
  | .null => 1
  | .bool _ => 1
  | .num _ => 1
  | .str _ => 1
  | .arr items => 1 + valueListSize items
  | .obj fields => 1 + valueFieldsSize fields

/-- Node count of an array's elements. -/
def valueListSize : List Value → Nat
  | [] => 0
  | v :: rest => 1 + valueSize v + valueListSize rest

/-- Node count of an object's fields. -/
def valueFieldsSize : List (Str × Value) → Nat
  | [] => 0
  | (_, v) :: rest => 1 + valueSize v + valueFieldsSize rest

end

/-- Fuel supplied to the encoder: each fueled call steps to a structurally
smaller value or a shorter field/item list, so the node count of the value
strictly dominates the depth of fueled calls. -/
def encoderFuel (v : Value) : Nat :=
  valueSize v + 2

/-- `encode::encode_value_to_string` (with `normalize::normalize_value`
applied first; writer errors cannot occur). -/
def encodeValueToString (value : Value) (options : Options) : Str :=
  encodeValue (encoderFuel value) (normalizeValue value) [] options 0

/-! # Theorems -/

/-! ## Helper lemmas -/

/-- Leading spaces of `replicate n ' ' ++ c :: xs` for a non-space `c`. -/
theorem leadingSpaces_replicate_append (n : Nat) (c : Char) (xs : Str)
    (hc : c ≠ ' ') : leadingSpaces (List.replicate n ' ' ++ c :: xs) = n := by
  induction n with
  | zero => simp [leadingSpaces, hc]
  | succ k ih => simpa [List.replicate_succ, leadingSpaces] using ih

/-- A list of blank lines is one long blank run. -/
theorem blankRun_all_blank (ls : List ParsedLine)
    (h : ∀ l ∈ ls, l.kind = .blank) : blankRun ls = ls.length := by
  induction ls with
  | nil => rfl
  | cons l rest ih =>
    have hl : l.kind = .blank := h l (by simp)
    simp [blankRun, hl, ih (fun x hx => h x (by simp [hx]))]

/-- `parse_scalar_token` never clears a recorded error. -/
theorem parseScalarTokenAt_error_isSome (st : PState) (s : Str) (n : Nat)
    (h : st.error.isSome) : ((parseScalarTokenAt st s n).1.error).isSome := by
  obtain ⟨lines, idx, strict, error⟩ := st
  obtain ⟨e, he⟩ := Option.isSome_iff_exists.mp h
  subst he
  unfold parseScalarTokenAt
  repeat' split
  all_goals try simp_all
  all_goals (repeat' split)
  all_goals simp_all

/-- Mapping `parse_scalar_token` over tokens never clears an error. -/
theorem parseScalarTokens_error_isSome (toks : List Str) (st : PState)
    (h : st.error.isSome) : ((parseScalarTokens st toks).1.error).isSome := by
  induction toks generalizing st with
  | nil => simpa [parseScalarTokens] using h
  | cons t rest ih =>
    simp only [parseScalarTokens]
    have h1 := parseScalarTokenAt_error_isSome st t st.idx h
    exact ih _ h1

/-- Sorted views agree exactly on permuted key lists. -/
theorem keySort_eq_iff {l₁ l₂ : List Str} :
    keySort l₁ = keySort l₂ ↔ l₁.Perm l₂ := by
  constructor
  · intro h
    have p1 := List.perm_insertionSort (α := Str) (· ≤ ·) l₁
    have p2 := List.perm_insertionSort (α := Str) (· ≤ ·) l₂
    unfold keySort at h
    exact p1.symm.trans (h ▸ p2)
  · intro h
    unfold keySort
    exact List.eq_of_perm_of_sorted
      ((List.perm_insertionSort _ l₁).trans (h.trans (List.perm_insertionSort _ l₂).symm))
      (List.sorted_insertionSort _ _) (List.sorted_insertionSort _ _)

/-- Once the reference key list is fixed, `itaLoop` can only return it. -/
theorem itaLoop_some_eq (rest : List Value) (ks0 ks : List Str)
    (h : itaLoop rest (some ks0) = some ks) : ks = ks0 := by
  induction rest generalizing ks0 with
  | nil => simpa [itaLoop] using h.symm
  | cons v vs ih =>
    match v with
    | .null | .bool _ | .num _ | .str _ | .arr _ => simp [itaLoop] at h
    | .obj m =>
      simp only [itaLoop] at h
      by_cases hk : keySort (m.map Prod.fst) = keySort ks0
      · rw [if_pos hk] at h
        by_cases hprim : (m.all fun p => p.2.isPrimitive) = true
        · rw [if_pos hprim] at h
          exact ih ks0 h
        · rw [if_neg hprim] at h
          exact Option.noConfusion h
      · rw [if_neg hk] at h
        exact Option.noConfusion h

/-- Characterization of `itaLoop` with a fixed reference key list. -/
theorem itaLoop_some_iff (rest : List Value) (ks0 : List Str) :
    (itaLoop rest (some ks0)).isSome ↔
      ∀ v ∈ rest, ∃ m, v = Value.obj m ∧
        (m.map Prod.fst).Perm ks0 ∧ ∀ p ∈ m, p.2.isPrimitive = true := by
  induction rest with
  | nil => simp [itaLoop]
  | cons v vs ih =>
    cases v with
    | obj m =>
      simp only [itaLoop]
      by_cases hk : keySort (m.map Prod.fst) = keySort ks0
      · have hperm := keySort_eq_iff.mp hk
        rw [if_pos hk]
        by_cases hprim : (m.all fun p => p.2.isPrimitive) = true
        · rw [if_pos hprim, ih]
          constructor
          · intro hall w hw
            rcases List.mem_cons.mp hw with hw | hw
            · exact ⟨m, by rw [hw], hperm, by simpa [List.all_eq_true] using hprim⟩
            · exact hall w hw
          · intro hall w hw
            exact hall w (List.mem_cons_of_mem _ hw)
        · rw [if_neg hprim]
          constructor
          · intro hq; exact absurd hq (by simp)
          · intro hall
            exfalso
            rcases hall (Value.obj m) (List.mem_cons_self _ _) with ⟨m', hm', _, hp'⟩
            have hmm : m = m' := by injection hm'
            subst hmm
            exact hprim (by simpa [List.all_eq_true] using hp')
      · rw [if_neg hk]
        constructor
        · intro hq; exact absurd hq (by simp)
        · intro hall
          exfalso
          rcases hall (Value.obj m) (List.mem_cons_self _ _) with ⟨m', hm', hperm', _⟩
          have hmm : m = m' := by injection hm'
          subst hmm
          exact hk (keySort_eq_iff.mpr hperm')
    | null =>
      simp only [itaLoop]
      constructor
      · intro hq; exact absurd hq (by simp)
      · intro hall
        rcases hall Value.null (List.mem_cons_self _ _) with ⟨m', hm', _, _⟩
        exact Value.noConfusion hm'
    | bool b =>
      simp only [itaLoop]
      constructor
      · intro hq; exact absurd hq (by simp)
      · intro hall
        rcases hall (Value.bool b) (List.mem_cons_self _ _) with ⟨m', hm', _, _⟩
        exact Value.noConfusion hm'
    | num n =>
      simp only [itaLoop]
      constructor
      · intro hq; exact absurd hq (by simp)
      · intro hall
        rcases hall (Value.num n) (List.mem_cons_self _ _) with ⟨m', hm', _, _⟩
        exact Value.noConfusion hm'
    | str t =>
      simp only [itaLoop]
      constructor
      · intro hq; exact absurd hq (by simp)
      · intro hall
        rcases hall (Value.str t) (List.mem_cons_self _ _) with ⟨m', hm', _, _⟩
        exact Value.noConfusion hm'
    | arr items =>
      simp only [itaLoop]
      constructor
      · intro hq; exact absurd hq (by simp)
      · intro hall
        rcases hall (Value.arr items) (List.mem_cons_self _ _) with ⟨m', hm', _, _⟩
        exact Value.noConfusion hm'

/-! ## Claim theorems -/

/-- **C1.** Evaluation of the codec at the round-trip-breaking input
`{"a b.c": 1}`: encoding emits the quoted key, but decoding the result
returns the key with the zero-width-space sentinel (U+200B) prepended, so
`decode(encode(value, opts), opts) ≠ value` under default options —
contradicting the round-trip law that the repository's own
`fuzz_roundtrip_json` target asserts for arbitrary JSON values. -/
theorem c1_roundtrip_failing_input :
    encodeValueToString (.obj [("a b.c".data, .num (.u64 1))]) Options.default =
      ('"' :: "a b.c".data ++ '"' :: ':' :: ' ' :: '1' :: ['\n']) ∧
    decodeFromStr ('"' :: "a b.c".data ++ '"' :: ':' :: ' ' :: '1' :: ['\n'])
        Options.default =
      .ok (.obj [(quotedDotMarker :: "a b.c".data, .num (.u64 1))]) ∧
    Value.obj [(quotedDotMarker :: "a b.c".data, .num (.u64 1))] ≠
      Value.obj [("a b.c".data, .num (.u64 1))] := by
  refine ⟨by decide, by decide, by decide⟩

/-- **C2 (counterexample).** Decoding `"[2]: 1"` with the default options
(`strict = false`) reports an `array length mismatch` error instead of
returning a value, refuting "decoding with strict = false returns a value
and never reports an error". -/
theorem c2_counterexample :
    Options.default.strict = false ∧
    decodeFromStr "[2]: 1".data Options.default =
      .error ⟨1, "array length mismatch: header declares 2 elements but found 1"⟩ := by
  exact ⟨rfl, by decide⟩

/-- **C3 (counterexample).** Strict decoding accepts `"   a: 1"` — a single
line indented by 3 spaces, with `opts.indent = 2` — and also accepts a line
whose leading whitespace is a tab (the tab is folded into the key),
refuting "strict decoding rejects the input whenever some non-blank line's
leading-whitespace column count is not a multiple of opts.indent or
contains a tab". -/
theorem c3_counterexample :
    (scan "   a: 1".data).map ParsedLine.indent = [3] ∧
    ¬(3 % 2 = 0) ∧
    decodeFromStr "   a: 1".data { Options.default with strict := true } =
      .ok (.obj [("a".data, .num (.u64 1))]) ∧
    decodeFromStr ('\t' :: "a: 1".data) { Options.default with strict := true } =
      .ok (.obj [('\t' :: "a".data, .num (.u64 1))]) := by
  exact ⟨by decide, by decide, by decide, by decide⟩

/-- **C4 (counterexample).** Encoding `{"a": 1, "b": [true, "x"]}` with
default options does not produce `"a: 1\nb[2]: true,x"`: the writer
terminates every line, the final one included, with an LF. -/
theorem c4_counterexample :
    encodeValueToString
        (.obj [("a".data, .num (.u64 1)), ("b".data, .arr [.bool true, .str "x".data])])
        Options.default ≠ "a: 1\nb[2]: true,x".data := by
  decide

/-- **C4 (amended).** Encoding `{"a": 1, "b": [true, "x"]}` with default
options produces exactly `"a: 1\nb[2]: true,x\n"`: the two claimed lines in
order, each line — including the final one — terminated by a single LF. -/
theorem c4_encode_amended :
    encodeValueToString
        (.obj [("a".data, .num (.u64 1)), ("b".data, .arr [.bool true, .str "x".data])])
        Options.default = "a: 1\nb[2]: true,x\n".data := by
  decide

/-- **C7 (counterexample).** The scanner does not trim leading spaces from
a list item's value: the body `"-  x"` is classified as `ListItem` with
value `" x"` (the space after the marker kept), not `"x"`. -/
theorem c7_counterexample :
    parseLine "-  x".data = ⟨0, .listItem (some (' ' :: 'x' :: []))⟩ ∧
    LineKind.listItem (some (' ' :: 'x' :: [])) ≠ .listItem (some ('x' :: [])) := by
  exact ⟨by decide, by decide⟩

/-- **C9.** The decode pipeline never invokes the path-expansion pass: with
`expand_paths = Safe`, `"a.b: 1"` still decodes to the flat `{"a.b": 1}`
(not the claimed nested object) and `"\"a.b\": 1"` decodes to a key still
carrying the internal U+200B sentinel (not the claimed atomic `"a.b"`) —
while the uninvoked `expand_paths` function itself produces exactly the
claimed `{"a": {"b": 1}}` and strips the sentinel on the quoted key. -/
theorem c9_expand_paths_divergence :
    decodeFromStr "a.b: 1".data { Options.default with expandPaths := .safe } =
      .ok (.obj [("a.b".data, .num (.u64 1))]) ∧
    decodeFromStr ('"' :: "a.b".data ++ '"' :: ':' :: ' ' :: ['1'])
        { Options.default with expandPaths := .safe } =
      .ok (.obj [(quotedDotMarker :: "a.b".data, .num (.u64 1))]) ∧
    expandPaths (.obj [("a.b".data, .num (.u64 1))]) false =
      .ok (.obj [("a".data, .obj [("b".data, .num (.u64 1))])]) ∧
    expandPaths (.obj [(quotedDotMarker :: "a.b".data, .num (.u64 1))]) false =
      .ok (.obj [("a.b".data, .num (.u64 1))]) ∧
    Value.obj [("a.b".data, .num (.u64 1))] ≠
      Value.obj [("a".data, .obj [("b".data, .num (.u64 1))])] := by
  exact ⟨by decide, by decide, by decide, by decide, by decide⟩

/-- **C2 (amended).** Non-strict decoding is not error-free: whenever a
root array header carries inline values whose count differs from the
declared length, `parse_root_array_with_header` records an error — for any
strictness flag and any prior state (the assignment is unconditional). -/
theorem c2_nonstrict_length_mismatch_amended (fuel : Nat) (st : PState)
    (header : ArrayHeader) (inl : Str)
    (hfields : header.fields = none) (hinl : header.inlineValues = some inl)
    (hne : inl ≠ [])
    (hlen : (splitDelimAware inl header.delimiter).length ≠ header.length) :
    ((parseRootArrayWithHeader (fuel + 1) st header).1.error).isSome := by
  unfold parseRootArrayWithHeader
  rw [hfields, hinl]
  dsimp only
  rw [if_pos hne, if_pos hlen]
  exact parseScalarTokens_error_isSome _ _ (by simp)

/-- **C2 (amended, witness).** The hypotheses of the amended statement are
satisfiable: the header `[2]:` with inline cell `1`. -/
theorem c2_amended_witness :
    (⟨none, 2, ',', none, some ['1'], false⟩ : ArrayHeader).fields = none ∧
    (⟨none, 2, ',', none, some ['1'], false⟩ : ArrayHeader).inlineValues = some ['1'] ∧
    (['1'] : Str) ≠ [] ∧
    (splitDelimAware ['1'] ',').length ≠ 2 ∧
    ((parseRootArrayWithHeader 1 ⟨[], 0, false, none⟩
        ⟨none, 2, ',', none, some ['1'], false⟩).1.error).isSome := by
  refine ⟨rfl, rfl, by decide, by decide, ?_⟩
  exact c2_nonstrict_length_mismatch_amended 0 ⟨[], 0, false, none⟩
    ⟨none, 2, ',', none, some ['1'], false⟩ ['1'] rfl rfl (by decide) (by decide)

/-- **C3 (amended).** The indentation validation that strict decoding runs
is relative, not absolute: it accepts the scanned input iff every pair of
consecutive non-blank lines has (indent increase → exactly `+2`) and
(indent decrease → an even step). `opts.indent` is not consulted, a first
line of any indent is accepted, and tabs are invisible to it (the scanner
counts only spaces). -/
theorem c3_validation_relative_amended (input : Str) :
    validateIndentation (scan input) = .ok () ↔
      List.Chain' (fun p c => (p < c → c = p + 2) ∧ (c < p → (p - c) % 2 = 0))
        (((scan input).filter (fun l => l.kind ≠ .blank)).map ParsedLine.indent) := by
  have main : ∀ (ls : List ParsedLine) (idx : Nat) (prev : Option Nat),
      validateIndentationAux ls idx prev = .ok () ↔
        List.Chain' (fun p c => (p < c → c = p + 2) ∧ (c < p → (p - c) % 2 = 0))
          (prev.toList ++ (ls.filter (fun l => l.kind ≠ .blank)).map ParsedLine.indent) := by
    intro ls
    induction ls with
    | nil =>
      intro idx prev
      cases prev <;> simp [validateIndentationAux]
    | cons pl rest ih =>
      intro idx prev
      by_cases hb : pl.kind = .blank
      · simpa [validateIndentationAux, hb] using ih (idx + 1) prev
      · cases prev with
        | none =>
          simpa [validateIndentationAux, hb] using ih (idx + 1) (some pl.indent)
        | some pi =>
          simp only [validateIndentationAux]
          rw [if_neg hb]
          rw [show ((pl :: rest).filter (fun l => l.kind ≠ .blank)) =
              pl :: rest.filter (fun l => l.kind ≠ .blank) from by simp [hb]]
          rcases Nat.lt_trichotomy pi pl.indent with hlt | heq | hgt
          · rw [if_pos hlt]
            by_cases hne : pl.indent = pi + 2
            · rw [if_neg (by omega)]
              rw [ih (idx + 1) (some pl.indent)]
              simp only [Option.toList_some, List.singleton_append, List.map_cons,
                List.chain'_cons]
              constructor
              · intro hc
                exact ⟨⟨fun _ => hne, fun hcon => absurd hlt (by omega)⟩, hc⟩
              · intro hc
                exact hc.2
            · rw [if_pos (by omega)]
              constructor
              · intro hfalse; exact Except.noConfusion hfalse
              · intro hc
                simp only [Option.toList_some, List.singleton_append, List.map_cons,
                  List.chain'_cons] at hc
                exact absurd (hc.1.1 hlt) hne
          · subst heq
            rw [if_neg (by omega), if_neg (by omega)]
            rw [ih (idx + 1) (some pl.indent)]
            simp only [Option.toList_some, List.singleton_append, List.map_cons,
              List.chain'_cons]
            constructor
            · intro hc
              exact ⟨⟨fun hcon => absurd hcon (by omega), fun hcon => absurd hcon (by omega)⟩, hc⟩
            · intro hc
              exact hc.2
          · rw [if_neg (by omega)]
            by_cases hmod : (pi - pl.indent) % 2 = 0
            · rw [if_neg (by omega)]
              rw [ih (idx + 1) (some pl.indent)]
              simp only [Option.toList_some, List.singleton_append, List.map_cons,
                List.chain'_cons]
              constructor
              · intro hc
                exact ⟨⟨fun hcon => absurd hcon (by omega), fun _ => hmod⟩, hc⟩
              · intro hc
                exact hc.2
            · rw [if_pos ⟨hgt, hmod⟩]
              constructor
              · intro hfalse; exact Except.noConfusion hfalse
              · intro hc
                simp only [Option.toList_some, List.singleton_append, List.map_cons,
                  List.chain'_cons] at hc
                exact absurd (hc.1.2 hgt) hmod
  simpa using main (scan input) 0 none

/-- **C5.** For every string and every active delimiter, each of the
claim's conditions — empty, leading `-`, leading or trailing ASCII space,
containing the active delimiter or a colon — forces the encoder's
`needs_quotes` to answer `true`, and `format_string` then emits the
double-quoted escaped form `escape_and_quote(s)` rather than the verbatim
string. -/
theorem c5_needs_quotes_format (s : Str) (delim : Delimiter)
    (h : s = [] ∨ s.head? = some '-' ∨ s.head? = some ' ' ∨ s.getLast? = some ' ' ∨
      delimiterChar delim ∈ s ∨ ':' ∈ s) :
    needsQuotes s delim = true ∧ formatString s delim = escapeAndQuote s := by
  have hq : needsQuotes s delim = true := by
    unfold needsQuotes
    split_ifs with h1 h2 h3 h4 h5 h6 h7 h8 <;> try rfl
    exfalso
    rcases h with h | h | h | h | h | h
    · exact h1 h
    · exact h3 h
    · exact h4 (Or.inl h)
    · exact h4 (Or.inr h)
    · exact h5 (by simpa [List.elem_iff] using h)
    · exact h6 (by simpa [List.elem_iff] using h)
  exact ⟨hq, by simp [formatString, hq]⟩

/-- **C5 (witness).** The string `a:b` under the comma delimiter contains a
colon, is judged to need quotes, and is formatted via `escape_and_quote`. -/
theorem c5_witness :
    (':' ∈ "a:b".data) ∧
    (needsQuotes "a:b".data .comma = true ∧
      formatString "a:b".data .comma = escapeAndQuote "a:b".data) :=
  ⟨by decide, c5_needs_quotes_format "a:b".data .comma
    (Or.inr (Or.inr (Or.inr (Or.inr (Or.inr (by decide))))))⟩

/-- **C6.** `is_tabular_array` answers `some` — i.e. the encoder chooses
the tabular form — iff the array is non-empty, every element is an object
with primitive-only field values, and all elements' key lists are
permutations of one another (order-insensitive equality, implemented as
sorted-view comparison); moreover the returned header field list is
exactly the first element's key list in its original order. -/
theorem c6_tabular_array_characterization (arr : List Value) :
    ((isTabularArray arr).isSome ↔
      (arr ≠ [] ∧ ∀ v ∈ arr, ∃ m, v = Value.obj m ∧
        (∀ p ∈ m, p.2.isPrimitive = true) ∧
        ∀ w ∈ arr, ∀ m', w = Value.obj m' →
          (m'.map Prod.fst).Perm (m.map Prod.fst))) ∧
    (∀ ks, isTabularArray arr = some ks →
      ∃ m, arr.head? = some (Value.obj m) ∧ ks = m.map Prod.fst) := by
  cases arr with
  | nil =>
    constructor
    · simp [isTabularArray]
    · intro ks hks
      simp [isTabularArray] at hks
  | cons v vs =>
    cases v with
    | obj m =>
      have hunfold : isTabularArray (Value.obj m :: vs) =
          (if (m.all fun p => p.2.isPrimitive) = true then
            itaLoop vs (some (m.map Prod.fst)) else none) := by
        simp [isTabularArray, itaLoop]
      constructor
      · rw [hunfold]
        by_cases hprim : (m.all fun p => p.2.isPrimitive) = true
        · rw [if_pos hprim, itaLoop_some_iff]
          constructor
          · intro hall
            refine ⟨by simp, ?_⟩
            have hmemperm : ∀ w ∈ Value.obj m :: vs, ∀ m', w = Value.obj m' →
                (m'.map Prod.fst).Perm (m.map Prod.fst) := by
              intro w hw m' hw'
              rcases List.mem_cons.mp hw with hw | hw
              · have : Value.obj m' = Value.obj m := by rw [← hw', hw]
                have hm : m' = m := by injection this
                rw [hm]
              · rcases hall w hw with ⟨mw, hmw, hpermw, _⟩
                have hm : m' = mw := by
                  have : Value.obj m' = Value.obj mw := by rw [← hw', hmw]
                  injection this
                rw [hm]
                exact hpermw
            intro w hw
            rcases List.mem_cons.mp hw with hw | hw
            · refine ⟨m, by rw [hw], by simpa [List.all_eq_true] using hprim, ?_⟩
              exact hmemperm
            · rcases hall w hw with ⟨mw, hmw, hpermw, hprimw⟩
              refine ⟨mw, hmw, hprimw, ?_⟩
              intro u hu m' hu'
              exact (hmemperm u hu m' hu').trans hpermw.symm
          · intro ⟨_, hall⟩
            intro w hw
            rcases hall w (List.mem_cons_of_mem _ hw) with ⟨mw, hmw, hprimw, hpairw⟩
            refine ⟨mw, hmw, ?_, hprimw⟩
            exact (hpairw (Value.obj m) (List.mem_cons_self _ _) m rfl).symm
        · rw [if_neg hprim]
          constructor
          · intro hfalse; exact absurd hfalse (by simp)
          · intro ⟨_, hall⟩
            exfalso
            rcases hall (Value.obj m) (List.mem_cons_self _ _) with ⟨m', hm', hp', _⟩
            have hmm : m = m' := by injection hm'
            subst hmm
            exact hprim (by simpa [List.all_eq_true] using hp')
      · intro ks hks
        rw [hunfold] at hks
        by_cases hprim : (m.all fun p => p.2.isPrimitive) = true
        · rw [if_pos hprim] at hks
          exact ⟨m, rfl, itaLoop_some_eq vs _ _ hks⟩
        · rw [if_neg hprim] at hks
          exact Option.noConfusion hks
    | null =>
      refine ⟨?_, ?_⟩
      · constructor
        · intro hq
          simp [isTabularArray, itaLoop] at hq
        · intro ⟨_, hall⟩
          rcases hall Value.null (List.mem_cons_self _ _) with ⟨m', hm', _, _⟩
          exact Value.noConfusion hm'
      · intro ks hks
        simp [isTabularArray, itaLoop] at hks
    | bool b =>
      refine ⟨?_, ?_⟩
      · constructor
        · intro hq
          simp [isTabularArray, itaLoop] at hq
        · intro ⟨_, hall⟩
          rcases hall (Value.bool b) (List.mem_cons_self _ _) with ⟨m', hm', _, _⟩
          exact Value.noConfusion hm'
      · intro ks hks
        simp [isTabularArray, itaLoop] at hks
    | num nn =>
      refine ⟨?_, ?_⟩
      · constructor
        · intro hq
          simp [isTabularArray, itaLoop] at hq
        · intro ⟨_, hall⟩
          rcases hall (Value.num nn) (List.mem_cons_self _ _) with ⟨m', hm', _, _⟩
          exact Value.noConfusion hm'
      · intro ks hks
        simp [isTabularArray, itaLoop] at hks
    | str t =>
      refine ⟨?_, ?_⟩
      · constructor
        · intro hq
          simp [isTabularArray, itaLoop] at hq
        · intro ⟨_, hall⟩
          rcases hall (Value.str t) (List.mem_cons_self _ _) with ⟨m', hm', _, _⟩
          exact Value.noConfusion hm'
      · intro ks hks
        simp [isTabularArray, itaLoop] at hks
    | arr items =>
      refine ⟨?_, ?_⟩
      · constructor
        · intro hq
          simp [isTabularArray, itaLoop] at hq
        · intro ⟨_, hall⟩
          rcases hall (Value.arr items) (List.mem_cons_self _ _) with ⟨m', hm', _, _⟩
          exact Value.noConfusion hm'
      · intro ks hks
        simp [isTabularArray, itaLoop] at hks

/-- **C7 (amended).** For every line whose body after `n` leading spaces
starts with `-` followed by a space, the scanner yields
`ListItem` at indent `n` whose value is the exact remainder after the
two-character `"- "` prefix — with no further trimming of leading spaces;
a body that is exactly `-` yields a `ListItem` with no value. -/
theorem c7_scanner_list_item_amended (n : Nat) (rest : Str) :
    parseLine (List.replicate n ' ' ++ '-' :: ' ' :: rest) = ⟨n, .listItem (some rest)⟩ ∧
    parseLine (List.replicate n ' ' ++ ['-']) = ⟨n, .listItem none⟩ := by
  constructor
  · have hls := leadingSpaces_replicate_append n '-' (' ' :: rest) (by decide)
    have hdrop : (List.replicate n ' ' ++ '-' :: ' ' :: rest).drop n = '-' :: ' ' :: rest :=
      List.drop_left' (by simp)
    simp only [parseLine]
    rw [hls, hdrop]
    simp
  · have hls := leadingSpaces_replicate_append n '-' [] (by decide)
    have hdrop : (List.replicate n ' ' ++ ['-']).drop n = ['-'] :=
      List.drop_left' (by simp)
    simp only [parseLine]
    rw [hls, hdrop]
    simp

/-- **C8.** Any input all of whose scanned lines are blank (the empty
string included) parses to the empty object: `parse_document` skips the
blanks, finds no line, and returns `Object([])` with no error, under
either strictness flag. -/
theorem c8_blank_document (input : Str) (strict : Bool)
    (h : ∀ l ∈ scan input, l.kind = .blank) :
    parseToValueWithStrict input strict = .ok (.obj []) := by
  obtain ⟨k, hk⟩ : ∃ k, parserFuel (scan input) = k + 1 := by
    refine ⟨parserFuel (scan input) - 1, ?_⟩
    have : 0 < parserFuel (scan input) :=
      Nat.mul_pos (by omega) (by omega)
    omega
  have hsb : skipBlanks ⟨scan input, 0, strict, none⟩ =
      ⟨scan input, (scan input).length, strict, none⟩ := by
    simp [skipBlanks, blankRun_all_blank _ h]
  have hpeek : (⟨scan input, (scan input).length, strict, none⟩ : PState).peek = none := by
    simp [PState.peek]
  have hdoc : parseDocument (parserFuel (scan input)) ⟨scan input, 0, strict, none⟩ =
      (⟨scan input, (scan input).length, strict, none⟩, Value.obj []) := by
    rw [hk]
    simp [parseDocument, hsb, hpeek]
  have hres : parseToValueWithStrict input strict =
      (match (parseDocument (parserFuel (scan input))
          ⟨scan input, 0, strict, none⟩).1.error with
        | some e => Except.error e
        | none => Except.ok (parseDocument (parserFuel (scan input))
            ⟨scan input, 0, strict, none⟩).2) := rfl
  rw [hres, hdoc]

/-- **C8 (witness).** The empty string scans to no lines (all of them
vacuously blank) and decodes to the empty object. -/
theorem c8_witness :
    (∀ l ∈ scan [], l.kind = .blank) ∧
    parseToValueWithStrict [] false = .ok (.obj []) :=
  ⟨by simp [scan], c8_blank_document [] false (by simp [scan])⟩

/-- **C10.** `parse_key_token` prepends the zero-width space U+200B to
every quoted key whose unescaped content contains a dot — and since the
decode entry point never runs the path-expansion pass that would strip it,
decoding `"a.b": 1` with the default options (`expand_paths = Off`)
returns the object whose key is U+200B followed by `a.b`. -/
theorem c10_quoted_dotted_key_sentinel :
    (∀ (st : PState) (k out : Str) (lineNo : Nat),
        k.head? = some '"' → tryUnescapeJsonString k = .ok out →
        out.contains '.' = true →
        parseKeyTokenAt st k lineNo = (st, quotedDotMarker :: out)) ∧
    decodeFromStr ('"' :: "a.b".data ++ '"' :: ':' :: ' ' :: ['1']) Options.default =
      .ok (.obj [(quotedDotMarker :: "a.b".data, .num (.u64 1))]) := by
  constructor
  · intro st k out lineNo hq hun hdot
    unfold parseKeyTokenAt
    rw [if_pos hq, hun]
    dsimp only
    rw [if_pos hdot]
  · decide

/-- **C10 (witness).** The sentinel lemma applies at the concrete quoted
key `"a.b"`. -/
theorem c10_witness :
    (('"' :: "a.b".data ++ ['"']).head? = some '"') ∧
    tryUnescapeJsonString ('"' :: "a.b".data ++ ['"']) = .ok "a.b".data ∧
    ("a.b".data.contains '.') = true ∧
    parseKeyTokenAt ⟨[], 0, false, none⟩ ('"' :: "a.b".data ++ ['"']) 0 =
      (⟨[], 0, false, none⟩, quotedDotMarker :: "a.b".data) := by
  refine ⟨by decide, by decide, by decide, ?_⟩
  exact c10_quoted_dotted_key_sentinel.1 ⟨[], 0, false, none⟩
    ('"' :: "a.b".data ++ ['"']) "a.b".data 0 (by decide) (by decide) (by decide)

end Toon
